import Mathlib

/-!
# StreamCircleServer: the response-caching middleware

A shallow embedding of `src/cacheMiddleware.js`.

```
const cache = {};
function cacheMiddleware(keyFn, ttl = 300) {
  return async (req, res, next) => {
    const key = typeof keyFn === 'function' ? keyFn(req) : keyFn;
    const cached = cache[key];
    if (cached && Date.now() < cached.expires) {
      return res.json(cached.data);
    }
    const originalJson = res.json.bind(res);
    res.json = (body) => {
      cache[key] = { data: body, expires: Date.now() + ttl * 1000 };
      originalJson(body);
    };
    next();
  };
}
```

The module-level `cache` is an ordinary JavaScript object, so the embedding
keeps its own properties and its prototype link apart: `cache[key]` is an
ordinary property read (own property first, then the prototype chain) and
`cache[key] = v` an ordinary property write, for which the key `__proto__`
reaches the accessor of `Object.prototype` instead of creating a property.

In the middleware numbers are the integers (`Date.now()` is an integer number
of milliseconds); the clock value of every `Date.now()` call is an explicit
argument.

Two handlers of `src/server.js` follow the middleware: the construction of the
provider parameters in `/genre/viewall`, and the random pick of `/random`, whose
`Math.random()` values are doubles, given as rationals, and whose products are
rounded to a nearest double.
-/

namespace StreamCircle

/-! ## JavaScript values -/

/-- The JavaScript values that reach the middleware: response bodies handed to
`res.json`, and what a read of `cache[key]` can evaluate to. `builtin` stands
for the objects every plain object inherits from `Object.prototype` (its
methods, and `Object.prototype` itself). -/
inductive JsValue where
  | undefined
  | null
  | bool (b : Bool)
  | num (n : Int)
  | str (s : String)
  | arr (items : List JsValue)
  | obj (fields : List (String × JsValue))
  | builtin (name : String)
  deriving Inhabited

namespace JsValue

/-- The truthiness test of `cached && ...` (ECMAScript ToBoolean). -/
def truthy : JsValue → Bool
  | undefined => false
  | null => false
  | bool b => b
  | num n => n != 0
  | str s => s != ""
  | arr _ => true
  | obj _ => true
  | builtin _ => true

/-- The property reads `v.data` and `v.expires` on a truthy value. Neither name
is defined by a built-in prototype, so only an object with such a field of its
own gives anything but `undefined`. (On `undefined` and `null` the read would
throw; the middleware reads a property only behind the truthiness test.) -/
def prop (name : String) : JsValue → JsValue
  | obj fields => (fields.lookup name).getD undefined
  | _ => undefined

/-- The comparison `Date.now() < v` with the clock value `now` on the left: the
right operand is coerced with ToNumber, and a comparison with NaN is false.
`none` marks the operands whose coercion goes through string parsing or
`ToPrimitive` (strings, arrays, objects), which this development leaves out. -/
def nowLt (now : Int) : JsValue → Option Bool
  | undefined => some false
  | null => some (decide (now < 0))
  | bool b => some (decide (now < (if b then 1 else 0)))
  | num n => some (decide (now < n))
  | builtin _ => some false
  | str _ => none
  | arr _ => none
  | obj _ => none

end JsValue

/-! ## The cache object -/

/-- The object literal `{ data: body, expires: ... }` stored by the interceptor. -/
structure Entry where
  data : JsValue
  expires : Int

/-- An entry as the JavaScript object it is. -/
def Entry.toValue (e : Entry) : JsValue :=
  JsValue.obj [("data", e.data), ("expires", JsValue.num e.expires)]

/-- The module-level object `cache`: its own properties (all of them entry
objects, since the interceptor is the only writer) and its prototype link,
`none` for the initial `Object.prototype` and `some e` once an entry object has
been installed as prototype through the `__proto__` accessor. -/
structure Cache where
  own : List (String × Entry)
  proto : Option Entry

/-- The initial value `const cache = {}`. -/
def Cache.empty : Cache := ⟨[], none⟩

/-- The data properties of `Object.prototype` (all of them functions). -/
def objectPrototypeNames : List String :=
  ["constructor", "hasOwnProperty", "isPrototypeOf", "propertyIsEnumerable",
   "toLocaleString", "toString", "valueOf", "__defineGetter__", "__defineSetter__",
   "__lookupGetter__", "__lookupSetter__"]

/-- A property read that reaches `Object.prototype`. -/
def objectPrototypeGet (key : String) : JsValue :=
  if key ∈ objectPrototypeNames then JsValue.builtin key else JsValue.undefined

/-- The read `cache[key]`. The key `__proto__` is the accessor inherited from
`Object.prototype` and gives the prototype link; any other key is looked up
among the own properties, then in the installed prototype object (whose own
properties are `data` and `expires`), then in `Object.prototype`. -/
def Cache.get (c : Cache) (key : String) : JsValue :=
  if key = "__proto__" then
    match c.proto with
    | some e => e.toValue
    | none => JsValue.builtin "Object.prototype"
  else
    match c.own.lookup key with
    | some e => e.toValue
    | none =>
      match c.proto with
      | some e =>
        if key = "data" then e.data
        else if key = "expires" then JsValue.num e.expires
        else objectPrototypeGet key
      | none => objectPrototypeGet key

/-- The write `cache[key] = e` of an entry object. The key `__proto__` runs the
setter inherited from `Object.prototype`, which makes the object the prototype
of `cache`; any other key creates or replaces an own property. -/
def Cache.set (c : Cache) (key : String) (e : Entry) : Cache :=
  if key = "__proto__" then
    { c with proto := some e }
  else
    { c with own := (key, e) :: c.own.filter (fun p => p.1 != key) }

/-- The entries `cache` holds under `key`: the own properties of that name, or
for the key `__proto__` the entry object installed as prototype, if any. -/
def Cache.entries (c : Cache) (key : String) : List Entry :=
  if key = "__proto__" then c.proto.toList
  else (c.own.filter (fun p => p.1 == key)).map Prod.snd

/-! ## The response object and the middleware -/

/-- The function held in `res.json`: the one Express installs, or an interceptor
closure `(body) => { cache[key] = ...; originalJson(body); }` with its captured
`key` and `ttl` around the function it replaced. -/
inductive JsonImpl where
  | original
  | intercept (key : String) (ttl : Int) (inner : JsonImpl)

/-- The keys under which the interceptors in a `res.json` function store. -/
def JsonImpl.keys : JsonImpl → List String
  | original => []
  | intercept key _ inner => key :: inner.keys

/-- The state a request runs in: the shared cache, how often the key function
has been called, and the response object (its status code, its `json` function,
the bodies put on the wire each with the status code they were sent under),
together with the number of calls of `next`. -/
structure State where
  cache : Cache
  keyFnCalls : Nat
  statusCode : Nat
  json : JsonImpl
  sent : List (Nat × JsValue)
  nextCalls : Nat

/-- The first argument of `cacheMiddleware`: a function of the request, or any
other value, used as the key itself. A JavaScript function need not be pure, so
its result may also depend on how many times it has been called before. -/
inductive KeyStrategy (ρ : Type) where
  | fn (f : ρ → Nat → String)
  | fixed (s : String)

/-- The expression `typeof keyFn === 'function' ? keyFn(req) : keyFn`, evaluated
when the key function has been called `n` times before. -/
def KeyStrategy.key {ρ : Type} : KeyStrategy ρ → ρ → Nat → String
  | fn f, req, n => f req n
  | fixed s, _, _ => s

/-- The number of calls of the key function that one evaluation of the key makes. -/
def KeyStrategy.calls {ρ : Type} : KeyStrategy ρ → Nat
  | fn _ => 1
  | fixed _ => 0

/-- A call `res.json(body)` at clock value `t`: every interceptor stores
`{ data: body, expires: Date.now() + ttl * 1000 }` under its key and then calls
the function it replaced; the Express function puts the body on the wire under
the current status code. -/
def callJson : JsonImpl → JsValue → Int → State → State
  | JsonImpl.original, body, _, s => { s with sent := s.sent ++ [(s.statusCode, body)] }
  | JsonImpl.intercept key ttl inner, body, t, s =>
    callJson inner body t { s with cache := s.cache.set key ⟨body, t + ttl * 1000⟩ }

/-- The test `cached && Date.now() < cached.expires` at clock value `now`. -/
def isFresh (cached : JsValue) (now : Int) : Option Bool :=
  if cached.truthy then JsValue.nowLt now (cached.prop "expires") else some false

/-- The function returned by `cacheMiddleware(keyFn, ttl)`, applied to a request
at clock value `now`; `ttl` is `none` when the argument is omitted (default
300). On a fresh entry it calls `res.json(cached.data)` and returns; otherwise
it replaces `res.json` by the interceptor and calls `next()`. The call on the
hit path runs in the same turn, so an interceptor already on the response
object reads the same clock value. -/
def cacheMiddleware {ρ : Type} (keyFn : KeyStrategy ρ) (ttl : Option Int) (req : ρ)
    (now : Int) (s : State) : Option State :=
  let key := keyFn.key req s.keyFnCalls
  let s1 := { s with keyFnCalls := s.keyFnCalls + keyFn.calls }
  let cached := s.cache.get key
  match isFresh cached now with
  | none => none
  | some true => some (callJson s1.json (cached.prop "data") now s1)
  | some false =>
    some { s1 with json := JsonImpl.intercept key (ttl.getD 300) s1.json,
                   nextCalls := s1.nextCalls + 1 }

/-! ## The downstream operation -/

/-- What a downstream handler does with the response object: `res.status(code)`,
`res.json(body)` at clock value `t`, or raising an error. -/
inductive Action where
  | status (code : Nat)
  | json (body : JsValue) (t : Int)
  | raise

/-- A downstream handler as the sequence of its actions; an error ends it. -/
def runDownstream : List Action → State → State
  | [], s => s
  | Action.status code :: rest, s => runDownstream rest { s with statusCode := code }
  | Action.json body t :: rest, s => runDownstream rest (callJson s.json body t s)
  | Action.raise :: _, s => s

/-- A whole request: the middleware at clock value `now`, then the downstream
handler if and only if `next` was called. -/
def serve {ρ : Type} (keyFn : KeyStrategy ρ) (ttl : Option Int) (req : ρ) (now : Int)
    (downstream : List Action) (s : State) : Option State :=
  match cacheMiddleware keyFn ttl req now s with
  | none => none
  | some s1 => if s1.nextCalls = s.nextCalls then some s1 else some (runDownstream downstream s1)

/-- A new response object, as Express creates one for each request, on top of
the shared state left by earlier requests. -/
def newRequest (s : State) : State :=
  { s with statusCode := 200, json := JsonImpl.original, sent := [], nextCalls := 0 }

/-! ## Notions used to state the properties -/

/-- The entry `e` is what `cache` holds under `key`: as an own property, or as
the prototype link when the key is `__proto__`. -/
def Cache.Stored (c : Cache) (key : String) (e : Entry) : Prop :=
  (key = "__proto__" ∧ c.proto = some e) ∨ (key ≠ "__proto__" ∧ c.own.lookup key = some e)

/-- The state the middleware leaves on the miss path. -/
def missState {ρ : Type} (keyFn : KeyStrategy ρ) (ttl : Option Int) (req : ρ) (s : State) :
    State :=
  { s with keyFnCalls := s.keyFnCalls + keyFn.calls,
           json := JsonImpl.intercept (keyFn.key req s.keyFnCalls) (ttl.getD 300) s.json,
           nextCalls := s.nextCalls + 1 }

/-- The state the middleware leaves on the hit path, having sent `data`. -/
def hitState {ρ : Type} (keyFn : KeyStrategy ρ) (data : JsValue) (now : Int) (s : State) :
    State :=
  callJson s.json data now { s with keyFnCalls := s.keyFnCalls + keyFn.calls }

/-- A response body as the `/search` handler produces one. -/
def batmanBody : JsValue :=
  JsValue.obj [("results", JsValue.arr [JsValue.str "Batman Begins"])]

/-- An error body as the handlers send from their `catch` blocks. -/
def errorBody : JsValue :=
  JsValue.obj [("error", JsValue.str "Multi search failed")]

/-- A response body that itself has the fields `data` and `expires`. -/
def entryShapedBody : JsValue :=
  JsValue.obj [("data", JsValue.str "stored under __proto__"),
    ("expires", JsValue.num 4102444800000)]

/-- A key function that is not pure: the request's own text on its first call,
the fixed text `other` on every later call. -/
def firstCallKey : KeyStrategy String :=
  KeyStrategy.fn (fun req n => if n = 0 then req else "other")

/-- The state of the first request after process start: an empty cache and a new
response object. -/
def initialState : State := ⟨Cache.empty, 0, 200, JsonImpl.original, [], 0⟩

/-- The key is present in `cache`: the cache holds an entry under it. -/
def Cache.Present (c : Cache) (key : String) : Prop := c.entries key ≠ []

/-- A state whose cache holds the entry `(batmanBody, 5000)` under
`search:batman`, with a new response object. -/
def batmanState : State :=
  { initialState with cache := Cache.empty.set "search:batman" ⟨batmanBody, 5000⟩ }

/-! ## The handlers `/genre/viewall` and `/random` of `src/server.js` -/

/-- The fields the `/genre/viewall` handler takes from `req.query`; a field the
request does not carry is `undefined`. -/
structure ViewAllQuery where
  id : JsValue
  type : JsValue
  sort_by : JsValue
  page : JsValue
  vote_count_gte : JsValue
  vote_average_gte : JsValue
  with_original_language : JsValue
  primary_release_date_gte : JsValue
  with_runtime_gte : JsValue

/-- A destructuring default `{ x = d } = req.query`: the default stands in for
`undefined` only. -/
def orDefault (v d : JsValue) : JsValue :=
  match v with
  | JsValue.undefined => d
  | _ => v

/-- The comparison `v === 'text'` with a string literal. -/
def strictEqStr (v : JsValue) (text : String) : Bool :=
  match v with
  | JsValue.str x => x == text
  | _ => false

/-- The assignment `params[key] = value` on an object given by its properties:
an existing property is replaced in place, a new one comes last. -/
def setParam : List (String × JsValue) → String → JsValue → List (String × JsValue)
  | [], key, value => [(key, value)]
  | (k, v) :: rest, key, value =>
    if k = key then (key, value) :: rest else (k, v) :: setParam rest key value

/-- The object `tmdbParams` that `/genre/viewall` passes to the provider, for the
environment's `TMDB_API_KEY` and the query; `none` when the handler answers 400
for a missing genre id. -/
def viewAllParams (apiKey : JsValue) (q : ViewAllQuery) : Option (List (String × JsValue)) :=
  let sort_by := orDefault q.sort_by (JsValue.str "vote_average.desc")
  let page := orDefault q.page (JsValue.num 1)
  if !q.id.truthy then none
  else
    let p0 : List (String × JsValue) :=
      [("api_key", apiKey), ("with_genres", q.id), ("sort_by", sort_by),
       ("include_adult", JsValue.bool false), ("include_video", JsValue.bool false),
       ("language", JsValue.str "en-US"), ("page", page)]
    let p1 :=
      if strictEqStr sort_by "vote_average.desc" && !q.vote_count_gte.truthy then
        setParam p0 "vote_count.gte" (JsValue.num 300)
      else if q.vote_count_gte.truthy then
        setParam p0 "vote_count.gte" q.vote_count_gte
      else p0
    let p2 :=
      if q.vote_average_gte.truthy then setParam p1 "vote_average.gte" q.vote_average_gte
      else p1
    let p3 :=
      if q.with_original_language.truthy then
        setParam p2 "with_original_language" q.with_original_language
      else p2
    let p4 :=
      if q.primary_release_date_gte.truthy then
        setParam p3 "primary_release_date.gte" q.primary_release_date_gte
      else p3
    let p5 :=
      if q.with_runtime_gte.truthy then setParam p4 "with_runtime.gte" q.with_runtime_gte
      else p4
    some p5

/-- A query carrying only the given genre id, sort order and vote-count floor. -/
def viewAllQuery (id sort_by vote_count_gte : JsValue) : ViewAllQuery :=
  ⟨id, JsValue.undefined, sort_by, JsValue.undefined, vote_count_gte, JsValue.undefined,
    JsValue.undefined, JsValue.undefined, JsValue.undefined⟩

/-- The `data` of a provider response to a discover request: the reported number
of pages and the items of the page, each a JSON object given by its fields. -/
structure DiscoverData where
  total_pages : Int
  results : List (List (String × JsValue))

/-- The read `item.poster_path` on an item. -/
def posterPath (item : List (String × JsValue)) : JsValue :=
  (item.lookup "poster_path").getD JsValue.undefined

/-- The read `results[index]` of an array at a number: `undefined`, here `none`,
outside the array. -/
def elementAt {α : Type} (results : List α) (index : Int) : Option α :=
  if index < 0 then none else results[index.toNat]?

/-- What the `/random` handler does: the pages it requested from the provider,
and its answer, which is `null`, or the item chosen on the chosen page (sent
after `normalizeTMDBItem`), or status 500 from the `catch` block. -/
inductive RandomOutcome where
  | null (fetched : List Int)
  | item (fetched : List Int) (page : Int) (index : Int) (chosen : List (String × JsValue))
  | failed (fetched : List Int)

/-- The finite values of the number type (IEEE 754 binary64): an integer
significand below `2^53` in magnitude, scaled by a power of two. -/
def IsDouble (g : ℚ) : Prop :=
  ∃ (m : ℤ) (e : ℤ), |m| < 2 ^ 53 ∧ -1074 ≤ e ∧ e ≤ 971 ∧ g = (m : ℚ) * (2 : ℚ) ^ e

/-- A multiplication that rounds to nearest: its result is at least as near to
the exact product as every double is (whichever way ties are broken). The exact
product is such a multiplication. -/
def RoundsToNearest (mul : ℚ → ℚ → ℚ) : Prop :=
  ∀ (a b g : ℚ), IsDouble g → |mul a b - a * b| ≤ |g - a * b|

/-- The `/random` handler. `provider page` is the response to the discover request
for that page (`none` when the request throws); `r1` and `r2` are the values of
the two `Math.random()` calls and `mul` is the multiplication `*` of numbers. -/
def randomHandler (provider : Int → Option DiscoverData) (mul : ℚ → ℚ → ℚ) (r1 r2 : ℚ) :
    RandomOutcome :=
  match provider 1 with
  | none => RandomOutcome.failed [1]
  | some firstRes =>
    let totalPages := if firstRes.total_pages > 500 then 500 else firstRes.total_pages
    if totalPages < 1 then RandomOutcome.null [1]
    else
      let randomPage := ⌊mul r1 (totalPages : ℚ)⌋ + 1
      let fetched := if randomPage = 1 then [1] else [1, randomPage]
      match (if randomPage = 1 then some firstRes else provider randomPage) with
      | none => RandomOutcome.failed fetched
      | some pageRes =>
        let results := pageRes.results.filter (fun item => (posterPath item).truthy)
        if results.length = 0 then RandomOutcome.null fetched
        else
          let randomIndex := ⌊mul r2 (results.length : ℚ)⌋
          match elementAt results randomIndex with
          | none => RandomOutcome.failed fetched
          | some chosen => RandomOutcome.item fetched randomPage randomIndex chosen

/-- An item with a poster, by its title. -/
def posterItem (title : String) : List (String × JsValue) :=
  [("title", JsValue.str title), ("poster_path", JsValue.str "/p.jpg")]

/-- A provider with three pages of two items each, the second item of every page
without a poster. -/
def threePages (page : Int) : Option DiscoverData :=
  if 1 ≤ page ∧ page ≤ 3 then
    some ⟨3, [posterItem "A", [("title", JsValue.str "B")]]⟩
  else none

end StreamCircle

namespace StreamCircle

/-! ## Lemmas on the cache object -/

theorem Entry.truthy_toValue (e : Entry) : e.toValue.truthy = true := rfl

theorem Entry.prop_expires (e : Entry) : e.toValue.prop "expires" = JsValue.num e.expires := by
  simp [Entry.toValue, JsValue.prop, List.lookup]

theorem Entry.prop_data (e : Entry) : e.toValue.prop "data" = e.data := by
  simp [Entry.toValue, JsValue.prop, List.lookup]

theorem isFresh_entry (e : Entry) (now : Int) :
    isFresh e.toValue now = some (decide (now < e.expires)) := by
  simp [isFresh, Entry.truthy_toValue, Entry.prop_expires, JsValue.nowLt]

theorem isFresh_undefined (now : Int) : isFresh JsValue.undefined now = some false := rfl

theorem lookup_filter_ne (l : List (String × Entry)) (k k' : String) (h : k' ≠ k) :
    (l.filter (fun p => p.1 != k)).lookup k' = l.lookup k' := by
  induction l with
  | nil => rfl
  | cons p rest ih =>
    obtain ⟨a, b⟩ := p
    by_cases hak : a = k
    · subst hak
      have h1 : (k' == a) = false := by simpa using h
      simp [List.filter_cons, List.lookup, h1, ih]
    · have h2 : (a != k) = true := by simpa using hak
      by_cases hk' : k' = a
      · subst hk'
        simp [List.filter_cons, h2, List.lookup]
      · have h1 : (k' == a) = false := by simpa using hk'
        simp [List.filter_cons, h2, List.lookup, h1, ih]

/-- A write is read back: `cache[key] = e` makes `cache[key]` the entry `e`. -/
theorem Cache.get_set_self (c : Cache) (key : String) (e : Entry) :
    (c.set key e).get key = e.toValue := by
  by_cases h : key = "__proto__"
  · simp [Cache.set, Cache.get, h]
  · simp [Cache.set, Cache.get, h, List.lookup]

/-- A write under a key other than `__proto__` leaves every other read as it was. -/
theorem Cache.get_set_of_ne (c : Cache) (a b : String) (e : Entry)
    (ha : a ≠ "__proto__") (hab : b ≠ a) : (c.set a e).get b = c.get b := by
  have hba : (b == a) = false := by simpa using hab
  by_cases hb : b = "__proto__"
  · simp [Cache.set, Cache.get, ha, hb]
  · simp [Cache.set, Cache.get, ha, hb, List.lookup, hba, lookup_filter_ne _ _ _ hab]

theorem Cache.Stored.get_eq {c : Cache} {key : String} {e : Entry} (h : c.Stored key e) :
    c.get key = e.toValue := by
  rcases h with ⟨hk, hp⟩ | ⟨hk, ho⟩
  · simp [Cache.get, hk, hp]
  · simp [Cache.get, hk, ho]

theorem Cache.stored_set_self (c : Cache) (key : String) (e : Entry) :
    (c.set key e).Stored key e := by
  by_cases h : key = "__proto__"
  · exact Or.inl ⟨h, by simp [Cache.set, h]⟩
  · exact Or.inr ⟨h, by simp [Cache.set, h, List.lookup]⟩

theorem Cache.Stored.set_of_ne {c : Cache} {key : String} {e : Entry} (h : c.Stored key e)
    (k : String) (e' : Entry) (hne : key ≠ k) : (c.set k e').Stored key e := by
  have hkk : (key == k) = false := by simpa using hne
  rcases h with ⟨hk, hp⟩ | ⟨hk, ho⟩
  · refine Or.inl ⟨hk, ?_⟩
    have : k ≠ "__proto__" := fun hk' => hne (hk.trans hk'.symm)
    simp [Cache.set, this, hp]
  · refine Or.inr ⟨hk, ?_⟩
    by_cases hk' : k = "__proto__"
    · simp [Cache.set, hk', ho]
    · simp [Cache.set, hk', List.lookup, hkk, lookup_filter_ne _ _ _ hne, ho]

theorem Cache.entries_set_self (c : Cache) (key : String) (e : Entry) :
    (c.set key e).entries key = [e] := by
  by_cases h : key = "__proto__"
  · simp [Cache.set, Cache.entries, h]
  · have hf : ∀ l : List (String × Entry),
        (l.filter (fun p => p.1 != key)).filter (fun p => p.1 == key) = [] := by
      intro l
      rw [List.filter_filter]
      exact List.filter_eq_nil_iff.mpr (fun p _ => by simp)
    simp [Cache.set, Cache.entries, h, List.filter_cons, hf]

theorem Cache.entries_set_of_ne (c : Cache) (key k : String) (e : Entry) (hne : key ≠ k) :
    (c.set k e).entries key = c.entries key := by
  by_cases hk : k = "__proto__"
  · have : key ≠ "__proto__" := fun h => hne (h.trans hk.symm)
    simp [Cache.set, Cache.entries, hk, this]
  · by_cases hkey : key = "__proto__"
    · simp [Cache.set, Cache.entries, hk, hkey]
    · have hkk : (k == key) = false := by simpa using (Ne.symm hne)
      have hf : (c.own.filter (fun p => p.1 != k)).filter (fun p => p.1 == key)
          = c.own.filter (fun p => p.1 == key) := by
        rw [List.filter_filter]
        refine List.filter_congr (fun p _ => ?_)
        by_cases hp : p.1 = key
        · simp [hp, hne]
        · simp [hp]
      simp [Cache.set, Cache.entries, hk, hkey, List.filter_cons, hkk, hf]

/-! ## Lemmas on `res.json` -/

theorem callJson_sent (j : JsonImpl) (body : JsValue) (t : Int) (s : State) :
    (callJson j body t s).sent = s.sent ++ [(s.statusCode, body)] := by
  induction j generalizing s with
  | original => rfl
  | intercept key ttl inner ih => simp [callJson, ih]

theorem callJson_statusCode (j : JsonImpl) (body : JsValue) (t : Int) (s : State) :
    (callJson j body t s).statusCode = s.statusCode := by
  induction j generalizing s with
  | original => rfl
  | intercept key ttl inner ih => simp [callJson, ih]

theorem callJson_json (j : JsonImpl) (body : JsValue) (t : Int) (s : State) :
    (callJson j body t s).json = s.json := by
  induction j generalizing s with
  | original => rfl
  | intercept key ttl inner ih => simp [callJson, ih]

theorem callJson_nextCalls (j : JsonImpl) (body : JsValue) (t : Int) (s : State) :
    (callJson j body t s).nextCalls = s.nextCalls := by
  induction j generalizing s with
  | original => rfl
  | intercept key ttl inner ih => simp [callJson, ih]

theorem callJson_keyFnCalls (j : JsonImpl) (body : JsValue) (t : Int) (s : State) :
    (callJson j body t s).keyFnCalls = s.keyFnCalls := by
  induction j generalizing s with
  | original => rfl
  | intercept key ttl inner ih => simp [callJson, ih]

/-- With no interceptor installed, `res.json` leaves the cache alone. -/
theorem callJson_original_cache (body : JsValue) (t : Int) (s : State) :
    (callJson JsonImpl.original body t s).cache = s.cache := rfl

/-- An entry stored under `key` survives a call of a `res.json` function none of
whose interceptors stores under `key`. -/
theorem callJson_stored (j : JsonImpl) (body : JsValue) (t : Int) (s : State)
    (key : String) (e : Entry) (hk : key ∉ j.keys) (h : s.cache.Stored key e) :
    (callJson j body t s).cache.Stored key e := by
  induction j generalizing s with
  | original => exact h
  | intercept k ttl inner ih =>
    simp only [JsonImpl.keys, List.mem_cons, not_or] at hk
    simp only [callJson]
    exact ih _ hk.2 (h.set_of_ne k _ hk.1)

theorem callJson_entries (j : JsonImpl) (body : JsValue) (t : Int) (s : State)
    (key : String) (hk : key ∉ j.keys) :
    (callJson j body t s).cache.entries key = s.cache.entries key := by
  induction j generalizing s with
  | original => rfl
  | intercept k ttl inner ih =>
    simp only [JsonImpl.keys, List.mem_cons, not_or] at hk
    simp only [callJson]
    rw [ih _ hk.2]
    exact Cache.entries_set_of_ne _ _ _ _ hk.1

/-- The interceptor installed for `key` with `ttl`, called with `body` at clock
value `t`, leaves the entry `(body, t + ttl * 1000)` under `key`, provided no
interceptor installed before it stores under the same key. -/
theorem callJson_intercept_stored (key : String) (ttl : Int) (inner : JsonImpl)
    (body : JsValue) (t : Int) (s : State) (hk : key ∉ inner.keys) :
    (callJson (JsonImpl.intercept key ttl inner) body t s).cache.Stored key
      ⟨body, t + ttl * 1000⟩ := by
  simp only [callJson]
  exact callJson_stored inner body t _ key _ hk (Cache.stored_set_self _ _ _)

/-! ## Lemmas on the middleware -/

theorem cacheMiddleware_of_fresh {ρ : Type} (keyFn : KeyStrategy ρ) (ttl : Option Int)
    (req : ρ) (now : Int) (s : State)
    (h : isFresh (s.cache.get (keyFn.key req s.keyFnCalls)) now = some true) :
    cacheMiddleware keyFn ttl req now s =
      some (hitState keyFn ((s.cache.get (keyFn.key req s.keyFnCalls)).prop "data") now s) := by
  simp [cacheMiddleware, h, hitState]

theorem cacheMiddleware_of_not_fresh {ρ : Type} (keyFn : KeyStrategy ρ) (ttl : Option Int)
    (req : ρ) (now : Int) (s : State)
    (h : isFresh (s.cache.get (keyFn.key req s.keyFnCalls)) now = some false) :
    cacheMiddleware keyFn ttl req now s = some (missState keyFn ttl req s) := by
  simp [cacheMiddleware, h, missState]

theorem cacheMiddleware_hit {ρ : Type} (keyFn : KeyStrategy ρ) (ttl : Option Int)
    (req : ρ) (now : Int) (s : State) (e : Entry)
    (h : s.cache.get (keyFn.key req s.keyFnCalls) = e.toValue) (hlt : now < e.expires) :
    cacheMiddleware keyFn ttl req now s = some (hitState keyFn e.data now s) := by
  rw [cacheMiddleware_of_fresh keyFn ttl req now s (by rw [h, isFresh_entry]; simp [hlt]),
    h, Entry.prop_data]

theorem cacheMiddleware_stale {ρ : Type} (keyFn : KeyStrategy ρ) (ttl : Option Int)
    (req : ρ) (now : Int) (s : State) (e : Entry)
    (h : s.cache.get (keyFn.key req s.keyFnCalls) = e.toValue) (hge : e.expires ≤ now) :
    cacheMiddleware keyFn ttl req now s = some (missState keyFn ttl req s) :=
  cacheMiddleware_of_not_fresh keyFn ttl req now s
    (by rw [h, isFresh_entry]; simp [not_lt.mpr hge])

end StreamCircle

namespace StreamCircle

/-! ## Lemmas on whole requests -/

theorem serve_of_not_fresh {ρ : Type} (keyFn : KeyStrategy ρ) (ttl : Option Int) (req : ρ)
    (now : Int) (downstream : List Action) (s : State)
    (h : isFresh (s.cache.get (keyFn.key req s.keyFnCalls)) now = some false) :
    serve keyFn ttl req now downstream s =
      some (runDownstream downstream (missState keyFn ttl req s)) := by
  simp [serve, cacheMiddleware_of_not_fresh keyFn ttl req now s h, missState]

/-- What a handler puts on the wire depends on the response object's status code
and earlier output only, not on the cache or on installed interceptors. -/
theorem runDownstream_wire (script : List Action) (s s' : State)
    (hsent : s.sent = s'.sent) (hcode : s.statusCode = s'.statusCode) :
    (runDownstream script s).sent = (runDownstream script s').sent ∧
      (runDownstream script s).statusCode = (runDownstream script s').statusCode := by
  induction script generalizing s s' with
  | nil => exact ⟨hsent, hcode⟩
  | cons a rest ih =>
    cases a with
    | status code => exact ih _ _ hsent rfl
    | json body t =>
      refine ih _ _ ?_ ?_
      · rw [callJson_sent, callJson_sent, hsent, hcode]
      · rw [callJson_statusCode, callJson_statusCode, hcode]
    | raise => exact ⟨hsent, hcode⟩

/-- A handler that only sets status codes before it raises leaves the cache alone
and puts nothing on the wire. -/
theorem runDownstream_raise (pre rest : List Action) (s : State)
    (hpre : ∀ a ∈ pre, ∃ code, a = Action.status code) :
    (runDownstream (pre ++ Action.raise :: rest) s).cache = s.cache ∧
      (runDownstream (pre ++ Action.raise :: rest) s).sent = s.sent := by
  induction pre generalizing s with
  | nil => exact ⟨rfl, rfl⟩
  | cons a pre ih =>
    obtain ⟨code, rfl⟩ := hpre a (List.mem_cons_self _ _)
    simp only [List.cons_append, runDownstream]
    exact ih _ (fun b hb => hpre b (List.mem_cons_of_mem _ hb))

theorem runDownstream_keyFnCalls (script : List Action) (s : State) :
    (runDownstream script s).keyFnCalls = s.keyFnCalls := by
  induction script generalizing s with
  | nil => rfl
  | cons a rest ih =>
    cases a with
    | status code => exact ih _
    | json body t => exact (ih _).trans (callJson_keyFnCalls _ _ _ _)
    | raise => rfl

/-! ## The claims -/

/-- C1 (cache hit): whenever `cache[key]` is an entry `{data, expires}` with
`now < expires`, the middleware returns after exactly one call
`res.json(data)`, which puts the stored payload on the wire, and `next` is not
called. -/
theorem C1_hit_serves_stored_payload {ρ : Type} (keyFn : KeyStrategy ρ) (ttl : Option Int)
    (req : ρ) (now : Int) (s : State) (data : JsValue) (expires : Int)
    (hentry : s.cache.get (keyFn.key req s.keyFnCalls) = (Entry.mk data expires).toValue)
    (hfresh : now < expires) :
    ∃ s1, cacheMiddleware keyFn ttl req now s = some s1 ∧
      s1 = callJson s.json data now { s with keyFnCalls := s.keyFnCalls + keyFn.calls } ∧
      s1.sent = s.sent ++ [(s.statusCode, data)] ∧
      s1.nextCalls = s.nextCalls := by
  refine ⟨_, cacheMiddleware_hit keyFn ttl req now s ⟨data, expires⟩ hentry hfresh, rfl, ?_, ?_⟩
  · simp [hitState, callJson_sent]
  · simp [hitState, callJson_nextCalls]

/-- C1 at a concrete input: the entry for `search:batman` expires at 5000 and is
read at 3000. -/
theorem C1_hit_serves_stored_payload_witness :
    ∃ s1, cacheMiddleware (KeyStrategy.fixed "search:batman") none () 3000
        { initialState with cache := Cache.empty.set "search:batman" ⟨batmanBody, 5000⟩ }
          = some s1 ∧
      s1 = callJson JsonImpl.original batmanBody 3000
        { initialState with cache := Cache.empty.set "search:batman" ⟨batmanBody, 5000⟩ } ∧
      s1.sent = [(200, batmanBody)] ∧
      s1.nextCalls = 0 :=
  C1_hit_serves_stored_payload (KeyStrategy.fixed "search:batman") none () 3000
    { initialState with cache := Cache.empty.set "search:batman" ⟨batmanBody, 5000⟩ }
    batmanBody 5000 rfl (by decide)

/-- C2 fails as stated: a request for `search:batman` misses on the empty cache,
the handler fails and answers `res.status(500).json(errorBody)` at clock value
7, and the error body is stored under the key: the cache after the request is
not the cache before it. -/
theorem C2_error_response_is_cached :
    isFresh (initialState.cache.get "search:batman") 0 = some false ∧
      serve (KeyStrategy.fixed "search:batman") none () 0
          [Action.status 500, Action.json errorBody 7] initialState
        = some ⟨⟨[("search:batman", ⟨errorBody, 300007⟩)], none⟩, 0, 500,
            JsonImpl.intercept "search:batman" 300 JsonImpl.original,
            [(500, errorBody)], 1⟩ ∧
      (⟨[("search:batman", ⟨errorBody, 300007⟩)], none⟩ : Cache) ≠ initialState.cache := by
  refine ⟨rfl, rfl, ?_⟩
  intro h
  cases h

/-- C2 as amended: on a miss, a handler that raises before it calls `res.json`
(having at most set status codes) leaves the cache exactly as it was; a handler
that answers `res.status(code).json(body)` at clock value `t` has its body
stored under the key with expiry `t + ttl * 1000` whatever the status code is,
and the body goes out unchanged under that code. -/
theorem C2_only_a_raise_leaves_cache_unwritten {ρ : Type} (keyFn : KeyStrategy ρ)
    (ttl : Option Int) (req : ρ) (now : Int) (s : State)
    (hmiss : isFresh (s.cache.get (keyFn.key req s.keyFnCalls)) now = some false)
    (hkey : keyFn.key req s.keyFnCalls ∉ s.json.keys) :
    (∀ pre rest : List Action, (∀ a ∈ pre, ∃ code, a = Action.status code) →
      ∃ s1, serve keyFn ttl req now (pre ++ Action.raise :: rest) s = some s1 ∧
        s1.cache = s.cache ∧ s1.sent = s.sent) ∧
    (∀ (code : Nat) (body : JsValue) (t : Int),
      ∃ s1, serve keyFn ttl req now [Action.status code, Action.json body t] s = some s1 ∧
        s1.cache.get (keyFn.key req s.keyFnCalls)
          = (Entry.mk body (t + ttl.getD 300 * 1000)).toValue ∧
        s1.sent = s.sent ++ [(code, body)]) := by
  constructor
  · intro pre rest hpre
    refine ⟨_, serve_of_not_fresh keyFn ttl req now _ s hmiss, ?_, ?_⟩
    · rw [(runDownstream_raise pre rest _ hpre).1]
      rfl
    · rw [(runDownstream_raise pre rest _ hpre).2]
      rfl
  · intro code body t
    refine ⟨_, serve_of_not_fresh keyFn ttl req now _ s hmiss, ?_, ?_⟩
    · simp only [runDownstream, missState]
      exact (callJson_intercept_stored _ _ _ body t _ hkey).get_eq
    · simp [runDownstream, missState, callJson_sent]

/-- C2 as amended, at a concrete input: the first request for `search:batman`,
once with a handler that raises and once with one that answers status 500. -/
theorem C2_only_a_raise_leaves_cache_unwritten_witness :
    (∃ s1, serve (KeyStrategy.fixed "search:batman") none () 0
        ([Action.status 500] ++ Action.raise :: []) initialState = some s1 ∧
      s1.cache = initialState.cache ∧ s1.sent = initialState.sent) ∧
    (∃ s1, serve (KeyStrategy.fixed "search:batman") none () 0
        [Action.status 500, Action.json errorBody 7] initialState = some s1 ∧
      s1.cache.get "search:batman" = (Entry.mk errorBody (7 + 300 * 1000)).toValue ∧
      s1.sent = initialState.sent ++ [(500, errorBody)]) :=
  have h := C2_only_a_raise_leaves_cache_unwritten (KeyStrategy.fixed "search:batman") none ()
    0 initialState rfl (List.not_mem_nil _)
  ⟨h.1 [Action.status 500] [] (by simp), h.2 500 errorBody 7⟩

/-- C3 (TTL boundary): a request misses and its handler emits `body` at clock
value `t` under a TTL of `ttl` seconds. The entry then held under the key has
`expires = t + 1000 * ttl`, and on that cache a later request for the same key
is a hit (the body is sent, `next` is not called) at every clock value
`now < t + 1000 * ttl` and a miss (nothing is sent, `next` is called) at every
`now ≥ t + 1000 * ttl`. -/
theorem C3_ttl_boundary {ρ : Type} (keyFn : KeyStrategy ρ) (ttl : Int) (req : ρ) (t0 : Int)
    (s : State) (body : JsValue) (t : Int)
    (hmiss : isFresh (s.cache.get (keyFn.key req s.keyFnCalls)) t0 = some false)
    (hkey : keyFn.key req s.keyFnCalls ∉ s.json.keys) :
    ∃ s1, serve keyFn (some ttl) req t0 [Action.json body t] s = some s1 ∧
      s1.cache.get (keyFn.key req s.keyFnCalls) = (Entry.mk body (t + 1000 * ttl)).toValue ∧
      ∀ (keyFn2 : KeyStrategy ρ) (ttl2 : Option Int) (req2 : ρ) (now : Int) (s2 : State),
        s2.cache = s1.cache →
        keyFn2.key req2 s2.keyFnCalls = keyFn.key req s.keyFnCalls →
        (now < t + 1000 * ttl →
          ∃ s3, cacheMiddleware keyFn2 ttl2 req2 now s2 = some s3 ∧
            s3.sent = s2.sent ++ [(s2.statusCode, body)] ∧ s3.nextCalls = s2.nextCalls) ∧
        (t + 1000 * ttl ≤ now →
          ∃ s3, cacheMiddleware keyFn2 ttl2 req2 now s2 = some s3 ∧
            s3.sent = s2.sent ∧ s3.nextCalls = s2.nextCalls + 1) := by
  have hget : (runDownstream [Action.json body t] (missState keyFn (some ttl) req s)).cache.get
      (keyFn.key req s.keyFnCalls) = (Entry.mk body (t + 1000 * ttl)).toValue := by
    simp only [runDownstream, missState, Option.getD_some]
    rw [mul_comm 1000 ttl]
    exact (callJson_intercept_stored _ _ _ body t _ hkey).get_eq
  refine ⟨_, serve_of_not_fresh keyFn (some ttl) req t0 _ s hmiss, hget, ?_⟩
  intro keyFn2 ttl2 req2 now s2 hc hk
  have hget2 : s2.cache.get (keyFn2.key req2 s2.keyFnCalls)
      = (Entry.mk body (t + 1000 * ttl)).toValue := by rw [hc, hk, hget]
  constructor
  · intro hlt
    refine ⟨_, cacheMiddleware_hit keyFn2 ttl2 req2 now s2 _ hget2 hlt, ?_, ?_⟩
    · simp [hitState, callJson_sent]
    · simp [hitState, callJson_nextCalls]
  · intro hge
    exact ⟨_, cacheMiddleware_stale keyFn2 ttl2 req2 now s2 _ hget2 hge, rfl, rfl⟩

/-- C3 at the input of the scenario: TTL 5, `search:batman` written at clock
value 0; the read at 3000 is a hit and the read at 6000 is a miss. -/
theorem C3_ttl_boundary_witness :
    ∃ s1, serve (KeyStrategy.fixed "search:batman") (some 5) () 0
        [Action.json batmanBody 0] initialState = some s1 ∧
      s1.cache.get "search:batman" = (Entry.mk batmanBody 5000).toValue ∧
      (∃ s3, cacheMiddleware (KeyStrategy.fixed "search:batman") (some 5) () 3000
          (newRequest s1) = some s3 ∧
        s3.sent = [(200, batmanBody)] ∧ s3.nextCalls = 0) ∧
      (∃ s3, cacheMiddleware (KeyStrategy.fixed "search:batman") (some 5) () 6000
          (newRequest s1) = some s3 ∧
        s3.sent = [] ∧ s3.nextCalls = 1) := by
  obtain ⟨s1, h1, h2, h3⟩ := C3_ttl_boundary (KeyStrategy.fixed "search:batman") 5 () 0
    initialState batmanBody 0 rfl (List.not_mem_nil _)
  refine ⟨s1, h1, h2, ?_, ?_⟩
  · exact (h3 (KeyStrategy.fixed "search:batman") (some 5) () 3000 (newRequest s1) rfl rfl).1
      (by decide)
  · exact (h3 (KeyStrategy.fixed "search:batman") (some 5) () 6000 (newRequest s1) rfl rfl).2
      (by decide)

/-- The miss path on a read that finds nothing fresh: when `cache[key]` is
`undefined`, or an inherited member of `Object.prototype`, or an entry with
`now ≥ expires`, the middleware sends nothing and calls `next` exactly once;
and when the handler then emits `body` through `res.json` at clock value `t`,
the read `cache[key]` gives the entry with `data = body` and
`expires = t + 1000 * ttl`, with `next` still called once. -/
theorem miss_invokes_next_and_stores {ρ : Type} (keyFn : KeyStrategy ρ) (ttl : Option Int)
    (req : ρ) (now : Int) (s : State)
    (hmiss : s.cache.get (keyFn.key req s.keyFnCalls) = JsValue.undefined ∨
      (∃ name, s.cache.get (keyFn.key req s.keyFnCalls) = JsValue.builtin name) ∨
      ∃ e : Entry, s.cache.get (keyFn.key req s.keyFnCalls) = e.toValue ∧ e.expires ≤ now)
    (hkey : keyFn.key req s.keyFnCalls ∉ s.json.keys) :
    ∃ s1, cacheMiddleware keyFn ttl req now s = some s1 ∧
      s1.nextCalls = s.nextCalls + 1 ∧ s1.sent = s.sent ∧ s1.cache = s.cache ∧
      ∀ (body : JsValue) (t : Int) (x : State), x.json = s1.json →
        (callJson x.json body t x).cache.get (keyFn.key req s.keyFnCalls)
          = (Entry.mk body (t + 1000 * ttl.getD 300)).toValue ∧
        (callJson x.json body t x).nextCalls = x.nextCalls := by
  have hm : cacheMiddleware keyFn ttl req now s = some (missState keyFn ttl req s) := by
    rcases hmiss with hu | ⟨name, hb⟩ | ⟨e, he, hexp⟩
    · exact cacheMiddleware_of_not_fresh keyFn ttl req now s (by rw [hu]; rfl)
    · exact cacheMiddleware_of_not_fresh keyFn ttl req now s (by rw [hb]; rfl)
    · exact cacheMiddleware_stale keyFn ttl req now s e he hexp
  refine ⟨_, hm, rfl, rfl, rfl, ?_⟩
  intro body t x hx
  refine ⟨?_, callJson_nextCalls _ _ _ _⟩
  rw [hx, mul_comm 1000]
  exact (callJson_intercept_stored _ _ _ body t x hkey).get_eq

/-- The miss path at a concrete input: the first request for `search:batman`,
answered at clock value 7 under the default TTL. -/
theorem miss_invokes_next_and_stores_example :
    ∃ s1, cacheMiddleware (KeyStrategy.fixed "search:batman") none () 0 initialState = some s1 ∧
      s1.nextCalls = 1 ∧ s1.sent = [] ∧ s1.cache = Cache.empty ∧
      (callJson s1.json batmanBody 7 s1).cache.get "search:batman"
        = (Entry.mk batmanBody 300007).toValue := by
  obtain ⟨s1, h1, h2, h3, h4, h5⟩ := miss_invokes_next_and_stores
    (KeyStrategy.fixed "search:batman") none () 0 initialState (Or.inl rfl) (List.not_mem_nil _)
  exact ⟨s1, h1, h2, h3, h4, (h5 batmanBody 7 s1 rfl).1⟩

/-- C4 fails on the code for a key that has no entry but inherits one: a request
keyed `__proto__` whose handler answers `entryShapedBody` at clock value 7
leaves the cache without any entry under `data` (no own property of that name),
yet the read `cache["data"]` gives the body stored under `__proto__`, and the
next request, keyed `data` at clock value 1000, is answered from the cache:
the middleware sends that body's `data` field, does not call `next`, and
installs no interceptor. On the initial cache the same request calls `next`
once. -/
theorem C4_key_without_entry_skips_next :
    serve (KeyStrategy.fixed "__proto__") none () 0 [Action.json entryShapedBody 7] initialState
      = some ⟨⟨[], some ⟨entryShapedBody, 300007⟩⟩, 0, 200,
          JsonImpl.intercept "__proto__" 300 JsonImpl.original, [(200, entryShapedBody)], 1⟩ ∧
    (⟨[], some ⟨entryShapedBody, 300007⟩⟩ : Cache).entries "data" = [] ∧
    (⟨[], some ⟨entryShapedBody, 300007⟩⟩ : Cache).get "data" = entryShapedBody ∧
    cacheMiddleware (KeyStrategy.fixed "data") none () 1000
        (newRequest ⟨⟨[], some ⟨entryShapedBody, 300007⟩⟩, 0, 200,
          JsonImpl.intercept "__proto__" 300 JsonImpl.original, [(200, entryShapedBody)], 1⟩)
      = some ⟨⟨[], some ⟨entryShapedBody, 300007⟩⟩, 0, 200, JsonImpl.original,
          [(200, JsValue.str "stored under __proto__")], 0⟩ ∧
    cacheMiddleware (KeyStrategy.fixed "data") none () 1000 (newRequest initialState)
      = some ⟨Cache.empty, 0, 200, JsonImpl.intercept "data" 300 JsonImpl.original, [], 1⟩ :=
  ⟨rfl, rfl, rfl, rfl, rfl⟩

/-- C5 (transparency on miss): on a miss the middleware itself sends nothing;
the `res.json` it installs is one store under the key followed by one call of
the function it replaced with the same body, so that each body the handler
emits goes on the wire once, unmodified, under the handler's status code; and
for every handler the wire output and status code of the request are those the
handler produces without the middleware. -/
theorem C5_miss_is_transparent {ρ : Type} (keyFn : KeyStrategy ρ) (ttl : Option Int)
    (req : ρ) (now : Int) (s : State)
    (hmiss : isFresh (s.cache.get (keyFn.key req s.keyFnCalls)) now = some false) :
    ∃ s1, cacheMiddleware keyFn ttl req now s = some s1 ∧
      s1.sent = s.sent ∧ s1.statusCode = s.statusCode ∧
      (∀ (body : JsValue) (t : Int) (x : State),
        callJson s1.json body t x
          = callJson s.json body t
              { x with cache := (x.cache.set (keyFn.key req s.keyFnCalls)
                  (Entry.mk body (t + ttl.getD 300 * 1000))) } ∧
        (callJson s1.json body t x).sent = x.sent ++ [(x.statusCode, body)]) ∧
      ∀ downstream : List Action,
        (runDownstream downstream s1).sent = (runDownstream downstream s).sent ∧
        (runDownstream downstream s1).statusCode = (runDownstream downstream s).statusCode := by
  refine ⟨_, cacheMiddleware_of_not_fresh keyFn ttl req now s hmiss, rfl, rfl, ?_, ?_⟩
  · intro body t x
    exact ⟨rfl, callJson_sent _ _ _ _⟩
  · intro downstream
    exact runDownstream_wire downstream _ s rfl rfl

/-- C5 at a concrete input: the first request for `search:batman`, whose handler
fails with status 500. -/
theorem C5_miss_is_transparent_witness :
    ∃ s1, cacheMiddleware (KeyStrategy.fixed "search:batman") none () 0 initialState = some s1 ∧
      (runDownstream [Action.status 500, Action.json errorBody 7] s1).sent
        = [(500, errorBody)] ∧
      (runDownstream [Action.status 500, Action.json errorBody 7] initialState).sent
        = [(500, errorBody)] := by
  obtain ⟨s1, h1, _, _, _, h5⟩ := C5_miss_is_transparent
    (KeyStrategy.fixed "search:batman") none () 0 initialState rfl
  exact ⟨s1, h1, (h5 _).1.trans rfl, rfl⟩

/-- C6 fails as stated: the first request for `search:batman` is answered
`res.status(500).json(errorBody)` and goes out under status 500; the next
request for the key, on a new response object within the TTL, is a hit that
delivers the same body under status 200. -/
theorem C6_hit_does_not_replay_status :
    serve (KeyStrategy.fixed "search:batman") none () 0
        [Action.status 500, Action.json errorBody 7] initialState
      = some ⟨⟨[("search:batman", ⟨errorBody, 300007⟩)], none⟩, 0, 500,
          JsonImpl.intercept "search:batman" 300 JsonImpl.original,
          [(500, errorBody)], 1⟩ ∧
    serve (KeyStrategy.fixed "search:batman") none () 1000 [Action.json batmanBody 1001]
        (newRequest ⟨⟨[("search:batman", ⟨errorBody, 300007⟩)], none⟩, 0, 500,
          JsonImpl.intercept "search:batman" 300 JsonImpl.original,
          [(500, errorBody)], 1⟩)
      = some ⟨⟨[("search:batman", ⟨errorBody, 300007⟩)], none⟩, 0, 200,
          JsonImpl.original, [(200, errorBody)], 0⟩ :=
  ⟨rfl, rfl⟩

/-- C6 as amended: when an entry is populated by a handler's response with body
`body` under status `code`, a later hit on that key within the TTL delivers the
same body `body`, under the status code that the response object of the hitting
request has at that moment (200 on a new response object), whatever `code` was. -/
theorem C6_hit_replays_body_under_current_status {ρ : Type} (keyFn : KeyStrategy ρ)
    (ttl : Option Int) (req : ρ) (t0 : Int) (s : State) (code : Nat) (body : JsValue) (t : Int)
    (hmiss : isFresh (s.cache.get (keyFn.key req s.keyFnCalls)) t0 = some false)
    (hkey : keyFn.key req s.keyFnCalls ∉ s.json.keys) :
    ∃ s1, serve keyFn ttl req t0 [Action.status code, Action.json body t] s = some s1 ∧
      s1.sent = s.sent ++ [(code, body)] ∧
      ∀ (keyFn2 : KeyStrategy ρ) (ttl2 : Option Int) (req2 : ρ) (now : Int) (s2 : State),
        s2.cache = s1.cache →
        keyFn2.key req2 s2.keyFnCalls = keyFn.key req s.keyFnCalls →
        now < t + 1000 * ttl.getD 300 →
        ∃ s3, cacheMiddleware keyFn2 ttl2 req2 now s2 = some s3 ∧
          s3.sent = s2.sent ++ [(s2.statusCode, body)] ∧ s3.nextCalls = s2.nextCalls := by
  have hget : (runDownstream [Action.status code, Action.json body t]
      (missState keyFn ttl req s)).cache.get (keyFn.key req s.keyFnCalls)
        = (Entry.mk body (t + 1000 * ttl.getD 300)).toValue := by
    simp only [runDownstream, missState]
    rw [mul_comm 1000]
    exact (callJson_intercept_stored _ _ _ body t _ hkey).get_eq
  refine ⟨_, serve_of_not_fresh keyFn ttl req t0 _ s hmiss, ?_, ?_⟩
  · simp [runDownstream, missState, callJson_sent]
  · intro keyFn2 ttl2 req2 now s2 hc hk hlt
    have hget2 : s2.cache.get (keyFn2.key req2 s2.keyFnCalls)
        = (Entry.mk body (t + 1000 * ttl.getD 300)).toValue := by rw [hc, hk, hget]
    refine ⟨_, cacheMiddleware_hit keyFn2 ttl2 req2 now s2 _ hget2 hlt, ?_, ?_⟩
    · simp [hitState, callJson_sent]
    · simp [hitState, callJson_nextCalls]

/-- C6 as amended, at a concrete input: the entry for `search:batman` is
populated under status 500 and hit at clock value 1000 on a new response object. -/
theorem C6_hit_replays_body_under_current_status_witness :
    ∃ s1, serve (KeyStrategy.fixed "search:batman") none () 0
        [Action.status 500, Action.json errorBody 7] initialState = some s1 ∧
      s1.sent = [(500, errorBody)] ∧
      ∃ s3, cacheMiddleware (KeyStrategy.fixed "search:batman") none () 1000 (newRequest s1)
          = some s3 ∧
        s3.sent = [(200, errorBody)] ∧ s3.nextCalls = 0 := by
  obtain ⟨s1, h1, h2, h3⟩ := C6_hit_replays_body_under_current_status
    (KeyStrategy.fixed "search:batman") none () 0 initialState 500 errorBody 7 rfl
    (List.not_mem_nil _)
  exact ⟨s1, h1, h2,
    h3 (KeyStrategy.fixed "search:batman") none () 1000 (newRequest s1) rfl rfl (by decide)⟩

/-- C7 fails on the code for the key `__proto__`: on the empty cache `cache["data"]`
is `undefined`; after a store under `__proto__` it is the body stored there.
A request keyed `__proto__` whose handler answers `entryShapedBody` is followed
by a request keyed `data`, under which nothing was ever stored: that request is
served from the cache (the `data` field of the other key's body is sent, `next`
is not called), whereas on the initial cache it misses and runs its handler. -/
theorem C7_proto_key_breaks_isolation :
    Cache.empty.get "data" = JsValue.undefined ∧
    (Cache.empty.set "__proto__" ⟨entryShapedBody, 300007⟩).get "data" = entryShapedBody ∧
    serve (KeyStrategy.fixed "__proto__") none () 0 [Action.json entryShapedBody 7] initialState
      = some ⟨⟨[], some ⟨entryShapedBody, 300007⟩⟩, 0, 200,
          JsonImpl.intercept "__proto__" 300 JsonImpl.original, [(200, entryShapedBody)], 1⟩ ∧
    serve (KeyStrategy.fixed "data") none () 1000 [Action.json batmanBody 1001]
        (newRequest ⟨⟨[], some ⟨entryShapedBody, 300007⟩⟩, 0, 200,
          JsonImpl.intercept "__proto__" 300 JsonImpl.original, [(200, entryShapedBody)], 1⟩)
      = some ⟨⟨[], some ⟨entryShapedBody, 300007⟩⟩, 0, 200, JsonImpl.original,
          [(200, JsValue.str "stored under __proto__")], 0⟩ ∧
    serve (KeyStrategy.fixed "data") none () 1000 [Action.json batmanBody 1001]
        (newRequest initialState)
      = some ⟨⟨[("data", ⟨batmanBody, 301001⟩)], none⟩, 0, 200,
          JsonImpl.intercept "data" 300 JsonImpl.original, [(200, batmanBody)], 1⟩ :=
  ⟨rfl, rfl, rfl, rfl, rfl⟩

/-- C8 (overwrite): a request has missed and installed its interceptor; when the
handler emits `v2` at clock value `t` while the key holds an entry `(v1, e1)`,
the cache afterwards holds exactly one entry under the key, `(v2, t + 1000 * ttl)`,
which differs from what was read before whenever payload or expiry differ; and
a later request for the key on that cache is a hit that sends `v2` at every
`now < t + 1000 * ttl` and a miss that sends nothing otherwise: `v1` is not
served again. -/
theorem C8_overwrite_replaces_entry {ρ : Type} (keyFn : KeyStrategy ρ) (ttl : Option Int)
    (req : ρ) (t0 : Int) (s : State)
    (hmiss : isFresh (s.cache.get (keyFn.key req s.keyFnCalls)) t0 = some false)
    (hkey : keyFn.key req s.keyFnCalls ∉ s.json.keys) :
    ∃ s1, cacheMiddleware keyFn ttl req t0 s = some s1 ∧
      ∀ (x : State) (v1 v2 : JsValue) (e1 t : Int), x.json = s1.json →
        x.cache.get (keyFn.key req s.keyFnCalls) = (Entry.mk v1 e1).toValue →
        (callJson x.json v2 t x).cache.entries (keyFn.key req s.keyFnCalls)
            = [⟨v2, t + 1000 * ttl.getD 300⟩] ∧
          (callJson x.json v2 t x).cache.get (keyFn.key req s.keyFnCalls)
            = (Entry.mk v2 (t + 1000 * ttl.getD 300)).toValue ∧
          (v1 ≠ v2 ∨ e1 ≠ t + 1000 * ttl.getD 300 →
            (callJson x.json v2 t x).cache.get (keyFn.key req s.keyFnCalls)
              ≠ x.cache.get (keyFn.key req s.keyFnCalls)) ∧
          ∀ (keyFn2 : KeyStrategy ρ) (ttl2 : Option Int) (req2 : ρ) (now : Int) (s2 : State),
            s2.cache = (callJson x.json v2 t x).cache →
            keyFn2.key req2 s2.keyFnCalls = keyFn.key req s.keyFnCalls →
            ∃ s3, cacheMiddleware keyFn2 ttl2 req2 now s2 = some s3 ∧
              ((now < t + 1000 * ttl.getD 300 ∧
                  s3.sent = s2.sent ++ [(s2.statusCode, v2)] ∧ s3.nextCalls = s2.nextCalls) ∨
                (t + 1000 * ttl.getD 300 ≤ now ∧
                  s3.sent = s2.sent ∧ s3.nextCalls = s2.nextCalls + 1)) := by
  refine ⟨_, cacheMiddleware_of_not_fresh keyFn ttl req t0 s hmiss, ?_⟩
  intro x v1 v2 e1 t hj hold
  have hget : (callJson x.json v2 t x).cache.get (keyFn.key req s.keyFnCalls)
      = (Entry.mk v2 (t + 1000 * ttl.getD 300)).toValue := by
    rw [hj, mul_comm 1000]
    exact (callJson_intercept_stored _ _ _ v2 t x hkey).get_eq
  refine ⟨?_, hget, ?_, ?_⟩
  · rw [hj, mul_comm 1000]
    simp only [missState, callJson]
    rw [callJson_entries _ _ _ _ _ hkey]
    exact Cache.entries_set_self _ _ _
  · intro hne heq
    rw [hget, hold] at heq
    simp only [Entry.toValue, JsValue.obj.injEq, List.cons.injEq, Prod.mk.injEq,
      JsValue.num.injEq, true_and, and_true] at heq
    rcases hne with h | h
    · exact h heq.1.symm
    · exact h heq.2.symm
  · intro keyFn2 ttl2 req2 now s2 hc hk
    have hget2 : s2.cache.get (keyFn2.key req2 s2.keyFnCalls)
        = (Entry.mk v2 (t + 1000 * ttl.getD 300)).toValue := by rw [hc, hk, hget]
    by_cases hlt : now < t + 1000 * ttl.getD 300
    · refine ⟨_, cacheMiddleware_hit keyFn2 ttl2 req2 now s2 _ hget2 hlt, Or.inl ⟨hlt, ?_, ?_⟩⟩
      · simp [hitState, callJson_sent]
      · simp [hitState, callJson_nextCalls]
    · exact ⟨_, cacheMiddleware_stale keyFn2 ttl2 req2 now s2 _ hget2 (not_lt.mp hlt),
        Or.inr ⟨not_lt.mp hlt, rfl, rfl⟩⟩

/-- C8 at a concrete input: the entry `(batmanBody, 5000)` for `search:batman`
is stale at 6000; the handler's answer `errorBody` at 6007 replaces it, and the
hit at 7000 sends `errorBody`. -/
theorem C8_overwrite_replaces_entry_witness :
    ∃ s1, cacheMiddleware (KeyStrategy.fixed "search:batman") (some 5) () 6000
        { initialState with cache := Cache.empty.set "search:batman" ⟨batmanBody, 5000⟩ }
          = some s1 ∧
      (callJson s1.json errorBody 6007 s1).cache.entries "search:batman"
        = [⟨errorBody, 11007⟩] ∧
      ∃ s3, cacheMiddleware (KeyStrategy.fixed "search:batman") (some 5) () 7000
          (newRequest (callJson s1.json errorBody 6007 s1)) = some s3 ∧
        s3.sent = [(200, errorBody)] ∧ s3.nextCalls = 0 := by
  obtain ⟨s1, h1, h2⟩ := C8_overwrite_replaces_entry (KeyStrategy.fixed "search:batman")
    (some 5) () 6000
    { initialState with cache := Cache.empty.set "search:batman" ⟨batmanBody, 5000⟩ }
    rfl (List.not_mem_nil _)
  have hs1 : s1.cache = Cache.empty.set "search:batman" ⟨batmanBody, 5000⟩ := by
    cases h1
    rfl
  obtain ⟨h3, _, _, h4⟩ := h2 s1 batmanBody errorBody 5000 6007 rfl (by rw [hs1]; rfl)
  refine ⟨s1, h1, h3, ?_⟩
  obtain ⟨s3, h5, h6⟩ := h4 (KeyStrategy.fixed "search:batman") (some 5) () 7000
    (newRequest (callJson s1.json errorBody 6007 s1)) rfl rfl
  refine ⟨s3, h5, ?_⟩
  rcases h6 with ⟨_, h7, h8⟩ | ⟨h7, _⟩
  · exact ⟨h7, h8⟩
  · exact absurd h7 (by decide)

/-- C9 (zero or negative TTL): with `ttl ≤ 0`, a request that misses and whose
handler emits `body` at clock value `t` still leaves the entry
`(body, t + 1000 * ttl)` under the key, and every later request for the key on
that cache, at a clock value `now ≥ t`, is a miss: nothing is sent from the
cache and `next` is called again. -/
theorem C9_nonpositive_ttl_never_hits {ρ : Type} (keyFn : KeyStrategy ρ) (ttl : Int) (req : ρ)
    (t0 : Int) (s : State) (body : JsValue) (t : Int) (httl : ttl ≤ 0)
    (hmiss : isFresh (s.cache.get (keyFn.key req s.keyFnCalls)) t0 = some false)
    (hkey : keyFn.key req s.keyFnCalls ∉ s.json.keys) :
    ∃ s1, serve keyFn (some ttl) req t0 [Action.json body t] s = some s1 ∧
      s1.cache.get (keyFn.key req s.keyFnCalls) = (Entry.mk body (t + 1000 * ttl)).toValue ∧
      ∀ (keyFn2 : KeyStrategy ρ) (ttl2 : Option Int) (req2 : ρ) (now : Int) (s2 : State),
        s2.cache = s1.cache →
        keyFn2.key req2 s2.keyFnCalls = keyFn.key req s.keyFnCalls →
        t ≤ now →
        ∃ s3, cacheMiddleware keyFn2 ttl2 req2 now s2 = some s3 ∧
          s3.sent = s2.sent ∧ s3.nextCalls = s2.nextCalls + 1 := by
  have hget : (runDownstream [Action.json body t] (missState keyFn (some ttl) req s)).cache.get
      (keyFn.key req s.keyFnCalls) = (Entry.mk body (t + 1000 * ttl)).toValue := by
    simp only [runDownstream, missState, Option.getD_some]
    rw [mul_comm 1000 ttl]
    exact (callJson_intercept_stored _ _ _ body t _ hkey).get_eq
  refine ⟨_, serve_of_not_fresh keyFn (some ttl) req t0 _ s hmiss, hget, ?_⟩
  intro keyFn2 ttl2 req2 now s2 hc hk hnow
  have hget2 : s2.cache.get (keyFn2.key req2 s2.keyFnCalls)
      = (Entry.mk body (t + 1000 * ttl)).toValue := by rw [hc, hk, hget]
  have hexp : t + 1000 * ttl ≤ now := by linarith
  exact ⟨_, cacheMiddleware_stale keyFn2 ttl2 req2 now s2 _ hget2 hexp, rfl, rfl⟩

/-- C9 at a concrete input: TTL 0, `search:batman` written at clock value 7 and
read again at the same clock value. -/
theorem C9_nonpositive_ttl_never_hits_witness :
    ∃ s1, serve (KeyStrategy.fixed "search:batman") (some 0) () 0
        [Action.json batmanBody 7] initialState = some s1 ∧
      s1.cache.get "search:batman" = (Entry.mk batmanBody 7).toValue ∧
      ∃ s3, cacheMiddleware (KeyStrategy.fixed "search:batman") (some 0) () 7 (newRequest s1)
          = some s3 ∧
        s3.sent = [] ∧ s3.nextCalls = 1 := by
  obtain ⟨s1, h1, h2, h3⟩ := C9_nonpositive_ttl_never_hits (KeyStrategy.fixed "search:batman")
    0 () 0 initialState batmanBody 7 (le_refl 0) rfl (List.not_mem_nil _)
  exact ⟨s1, h1, h2,
    h3 (KeyStrategy.fixed "search:batman") (some 0) () 7 (newRequest s1) rfl rfl (le_refl 7)⟩

/-- C10 (key derivation): the key is `f(req)` for a function `f`, called once,
and the configured value itself otherwise, with no call. That one key decides
between hit and miss through the read `cache[key]`; on a miss the installed
interceptor stores under the same key when the handler emits, and neither the
emit nor the rest of the request calls the key function again. -/
theorem C10_key_derivation {ρ : Type} (keyFn : KeyStrategy ρ) (ttl : Option Int) (req : ρ)
    (now : Int) (s : State) :
    (∀ f, keyFn = KeyStrategy.fn f →
      keyFn.key req s.keyFnCalls = f req s.keyFnCalls ∧ keyFn.calls = 1) ∧
    (∀ k, keyFn = KeyStrategy.fixed k →
      keyFn.key req s.keyFnCalls = k ∧ keyFn.calls = 0) ∧
    (isFresh (s.cache.get (keyFn.key req s.keyFnCalls)) now = some true →
      ∃ s1, cacheMiddleware keyFn ttl req now s = some s1 ∧
        s1 = callJson s.json ((s.cache.get (keyFn.key req s.keyFnCalls)).prop "data") now
          { s with keyFnCalls := s.keyFnCalls + keyFn.calls } ∧
        s1.keyFnCalls = s.keyFnCalls + keyFn.calls) ∧
    (isFresh (s.cache.get (keyFn.key req s.keyFnCalls)) now = some false →
      ∃ s1, cacheMiddleware keyFn ttl req now s = some s1 ∧
        s1.keyFnCalls = s.keyFnCalls + keyFn.calls ∧
        s1.json = JsonImpl.intercept (keyFn.key req s.keyFnCalls) (ttl.getD 300) s.json ∧
        (∀ (body : JsValue) (t : Int) (x : State), x.json = s1.json →
          callJson x.json body t x
            = callJson s.json body t
                { x with cache := (x.cache.set (keyFn.key req s.keyFnCalls)
                    (Entry.mk body (t + ttl.getD 300 * 1000))) } ∧
          (callJson x.json body t x).keyFnCalls = x.keyFnCalls) ∧
        ∀ downstream : List Action,
          ∃ s2, serve keyFn ttl req now downstream s = some s2 ∧
            s2.keyFnCalls = s.keyFnCalls + keyFn.calls) := by
  refine ⟨?_, ?_, ?_, ?_⟩
  · rintro f rfl
    exact ⟨rfl, rfl⟩
  · rintro k rfl
    exact ⟨rfl, rfl⟩
  · intro h
    refine ⟨_, cacheMiddleware_of_fresh keyFn ttl req now s h, rfl, ?_⟩
    simp [hitState, callJson_keyFnCalls]
  · intro h
    refine ⟨_, cacheMiddleware_of_not_fresh keyFn ttl req now s h, rfl, rfl, ?_, ?_⟩
    · intro body t x hx
      exact ⟨(congrArg (fun j => callJson j body t x) hx).trans rfl,
        callJson_keyFnCalls _ _ _ _⟩
    · intro downstream
      refine ⟨_, serve_of_not_fresh keyFn ttl req now downstream s h, ?_⟩
      rw [runDownstream_keyFnCalls]
      rfl

/-- C10 at a concrete input: the key function `firstCallKey` on the first
request, for `search:batman`; the handler's answer at clock value 7 is stored
under the key computed at the lookup, and the key function has been called once. -/
theorem C10_key_derivation_witness :
    ∃ s1, cacheMiddleware firstCallKey none "search:batman" 0 initialState = some s1 ∧
      s1.keyFnCalls = 1 ∧
      s1.json = JsonImpl.intercept "search:batman" 300 JsonImpl.original ∧
      (callJson s1.json batmanBody 7 s1).cache
        = ⟨[("search:batman", ⟨batmanBody, 300007⟩)], none⟩ ∧
      (callJson s1.json batmanBody 7 s1).keyFnCalls = 1 := by
  obtain ⟨s1, h1, h2, h3, h4, _⟩ :=
    (C10_key_derivation firstCallKey none "search:batman" 0 initialState).2.2.2 rfl
  refine ⟨s1, h1, h2, h3, ?_, ?_⟩
  · cases h1
    rfl
  · rw [(h4 batmanBody 7 s1 rfl).2, h2]
    rfl

/-! ## Default TTL, eviction, and the cache on a hit -/

theorem Cache.Present.set {c : Cache} {key : String} (h : c.Present key) (k : String)
    (e : Entry) : (c.set k e).Present key := by
  unfold Cache.Present at *
  by_cases hk : key = k
  · subst hk
    rw [Cache.entries_set_self]
    exact List.cons_ne_nil _ _
  · rw [Cache.entries_set_of_ne _ _ _ _ hk]
    exact h

theorem callJson_present (j : JsonImpl) (body : JsValue) (t : Int) (s : State) (key : String)
    (h : s.cache.Present key) : (callJson j body t s).cache.Present key := by
  induction j generalizing s with
  | original => exact h
  | intercept k ttl inner ih => exact ih _ (h.set k _)

theorem runDownstream_present (script : List Action) (s : State) (key : String)
    (h : s.cache.Present key) : (runDownstream script s).cache.Present key := by
  induction script generalizing s with
  | nil => exact h
  | cons a rest ih =>
    cases a with
    | status code => exact ih _ h
    | json body t => exact ih _ (callJson_present _ _ _ _ _ h)
    | raise => exact h

theorem cacheMiddleware_present {ρ : Type} (keyFn : KeyStrategy ρ) (ttl : Option Int) (req : ρ)
    (now : Int) (s : State) (key : String) (h : s.cache.Present key) (b : Bool)
    (hb : isFresh (s.cache.get (keyFn.key req s.keyFnCalls)) now = some b) :
    ∃ s1, cacheMiddleware keyFn ttl req now s = some s1 ∧ s1.cache.Present key := by
  cases b with
  | true =>
    exact ⟨_, cacheMiddleware_of_fresh keyFn ttl req now s hb, callJson_present _ _ _ _ _ h⟩
  | false => exact ⟨_, cacheMiddleware_of_not_fresh keyFn ttl req now s hb, h⟩

/-- C11 (default TTL): with the `ttl` argument omitted the middleware is the
middleware configured with 300, on every request, cache state and clock value
and for every handler; an entry written at clock value `t` by a request that
missed expires at `t + 300000`. -/
theorem C11_default_ttl_is_300 {ρ : Type} (keyFn : KeyStrategy ρ) (req : ρ) (now : Int)
    (s : State) :
    cacheMiddleware keyFn none req now s = cacheMiddleware keyFn (some 300) req now s ∧
    (∀ downstream : List Action,
      serve keyFn none req now downstream s = serve keyFn (some 300) req now downstream s) ∧
    (isFresh (s.cache.get (keyFn.key req s.keyFnCalls)) now = some false →
      keyFn.key req s.keyFnCalls ∉ s.json.keys →
      ∀ (body : JsValue) (t : Int),
        ∃ s1, serve keyFn none req now [Action.json body t] s = some s1 ∧
          s1.cache.get (keyFn.key req s.keyFnCalls) = (Entry.mk body (t + 300000)).toValue) := by
  refine ⟨rfl, fun _ => rfl, ?_⟩
  intro hmiss hkey body t
  refine ⟨_, serve_of_not_fresh keyFn none req now _ s hmiss, ?_⟩
  simp only [runDownstream, missState]
  have h := (callJson_intercept_stored (keyFn.key req s.keyFnCalls) ((none : Option Int).getD 300)
    s.json body t { s with keyFnCalls := s.keyFnCalls + keyFn.calls,
                           json := JsonImpl.intercept (keyFn.key req s.keyFnCalls)
                             ((none : Option Int).getD 300) s.json,
                           nextCalls := s.nextCalls + 1 } hkey).get_eq
  simpa using h

/-- C11 at a concrete input: the first request for `search:batman` with `ttl`
omitted, answered at clock value 7. -/
theorem C11_default_ttl_is_300_witness :
    ∃ s1, serve (KeyStrategy.fixed "search:batman") none () 0 [Action.json batmanBody 7]
        initialState = some s1 ∧
      s1.cache.get "search:batman" = (Entry.mk batmanBody 300007).toValue :=
  (C11_default_ttl_is_300 (KeyStrategy.fixed "search:batman") () 0 initialState).2.2
    rfl (List.not_mem_nil _) batmanBody 7

/-- C12 (no eviction): a key present in the cache is still present after every
step: after a call of any `res.json` function, after any handler, after the
middleware (hit or miss) and after a whole request. A read that finds a stale
entry leaves the cache exactly as it was. -/
theorem C12_no_eviction {ρ : Type} (keyFn : KeyStrategy ρ) (ttl : Option Int) (req : ρ)
    (now : Int) (s : State) (key : String) (hkey : s.cache.Present key) :
    (∀ (j : JsonImpl) (body : JsValue) (t : Int), (callJson j body t s).cache.Present key) ∧
    (∀ script : List Action, (runDownstream script s).cache.Present key) ∧
    (∀ b, isFresh (s.cache.get (keyFn.key req s.keyFnCalls)) now = some b →
      (∃ s1, cacheMiddleware keyFn ttl req now s = some s1 ∧ s1.cache.Present key) ∧
      ∀ downstream : List Action,
        ∃ s2, serve keyFn ttl req now downstream s = some s2 ∧ s2.cache.Present key) ∧
    (∀ e : Entry, s.cache.get (keyFn.key req s.keyFnCalls) = e.toValue → e.expires ≤ now →
      ∃ s1, cacheMiddleware keyFn ttl req now s = some s1 ∧ s1.cache = s.cache) := by
  refine ⟨fun j body t => callJson_present j body t s key hkey,
    fun script => runDownstream_present script s key hkey, ?_, ?_⟩
  · intro b hb
    refine ⟨cacheMiddleware_present keyFn ttl req now s key hkey b hb, ?_⟩
    intro downstream
    cases b with
    | true =>
      refine ⟨hitState keyFn ((s.cache.get (keyFn.key req s.keyFnCalls)).prop "data") now s,
        ?_, callJson_present _ _ _ _ _ hkey⟩
      simp [serve, cacheMiddleware_of_fresh keyFn ttl req now s hb, hitState,
        callJson_nextCalls]
    | false =>
      exact ⟨_, serve_of_not_fresh keyFn ttl req now downstream s hb,
        runDownstream_present _ _ _ hkey⟩
  · intro e he hexp
    exact ⟨_, cacheMiddleware_stale keyFn ttl req now s e he hexp, rfl⟩

/-- C12 at a concrete input: the entry for `search:batman` expired at 5000 and
is read at 6000; the key is still present, and the cache is unchanged. -/
theorem C12_no_eviction_witness :
    batmanState.cache.Present "search:batman" ∧
    ∃ s1, cacheMiddleware (KeyStrategy.fixed "search:batman") none () 6000 batmanState
        = some s1 ∧ s1.cache = batmanState.cache := by
  have hp : batmanState.cache.Present "search:batman" := by
    unfold Cache.Present
    rw [show batmanState.cache.entries "search:batman" = [⟨batmanBody, 5000⟩] from rfl]
    exact List.cons_ne_nil _ _
  exact ⟨hp, (C12_no_eviction (KeyStrategy.fixed "search:batman") none () 6000 batmanState
    "search:batman" hp).2.2.2 ⟨batmanBody, 5000⟩ rfl (by decide)⟩

/-- C13 (a hit does not touch the cache): when `cache[key]` is an entry with
`now < expires` and the response object still has the `res.json` of Express,
the middleware leaves the cache equal to the cache before (so the entry that
was hit keeps its expiry) and leaves `res.json` as it was; `next` is not
called. On any response object `res.json` is left as it was. -/
theorem C13_hit_leaves_cache_untouched {ρ : Type} (keyFn : KeyStrategy ρ) (ttl : Option Int)
    (req : ρ) (now : Int) (s : State) (data : JsValue) (expires : Int)
    (hentry : s.cache.get (keyFn.key req s.keyFnCalls) = (Entry.mk data expires).toValue)
    (hfresh : now < expires) :
    ∃ s1, cacheMiddleware keyFn ttl req now s = some s1 ∧
      s1.json = s.json ∧ s1.nextCalls = s.nextCalls ∧
      (s.json = JsonImpl.original →
        s1.cache = s.cache ∧
        s1.cache.get (keyFn.key req s.keyFnCalls) = (Entry.mk data expires).toValue) := by
  refine ⟨_, cacheMiddleware_hit keyFn ttl req now s ⟨data, expires⟩ hentry hfresh, ?_, ?_, ?_⟩
  · simp [hitState, callJson_json]
  · simp [hitState, callJson_nextCalls]
  · intro hj
    have hc : (hitState keyFn data now s).cache = s.cache := by
      simp only [hitState]
      rw [hj]
      rfl
    exact ⟨hc, by rw [hc]; exact hentry⟩

/-- C13 at a concrete input: the entry for `search:batman` expires at 5000 and
is hit at 3000 on a new response object. -/
theorem C13_hit_leaves_cache_untouched_witness :
    ∃ s1, cacheMiddleware (KeyStrategy.fixed "search:batman") none () 3000 batmanState
        = some s1 ∧
      s1.json = JsonImpl.original ∧ s1.nextCalls = 0 ∧
      s1.cache = batmanState.cache := by
  obtain ⟨s1, h1, h2, h3, h4⟩ := C13_hit_leaves_cache_untouched
    (KeyStrategy.fixed "search:batman") none () 3000 batmanState batmanBody 5000 rfl (by decide)
  exact ⟨s1, h1, h2, h3, (h4 rfl).1⟩

/-! ## The vote-count floor of `/genre/viewall` -/

theorem lookup_setParam_self (ps : List (String × JsValue)) (key : String) (value : JsValue) :
    (setParam ps key value).lookup key = some value := by
  induction ps with
  | nil => simp [setParam, List.lookup]
  | cons p rest ih =>
    obtain ⟨k, v⟩ := p
    by_cases hk : k = key
    · simp [setParam, hk, List.lookup]
    · have hkk : (key == k) = false := by simpa using (Ne.symm hk)
      simp [setParam, hk, List.lookup, hkk, ih]

theorem lookup_setParam_of_ne (ps : List (String × JsValue)) (key other : String)
    (value : JsValue) (h : other ≠ key) :
    (setParam ps key value).lookup other = ps.lookup other := by
  induction ps with
  | nil =>
    have hkk : (other == key) = false := by simpa using h
    simp [setParam, List.lookup, hkk]
  | cons p rest ih =>
    obtain ⟨k, v⟩ := p
    by_cases hk : k = key
    · subst hk
      have hkk : (other == k) = false := by simpa using h
      simp [setParam, List.lookup, hkk]
    · by_cases ho : other = k
      · subst ho
        simp [setParam, hk, List.lookup]
      · have hkk : (other == k) = false := by simpa using ho
        simp [setParam, hk, List.lookup, hkk, ih]

theorem lookup_ite_setParam (c : Bool) (ps : List (String × JsValue)) (key other : String)
    (value : JsValue) (h : other ≠ key) :
    (if c = true then setParam ps key value else ps).lookup other = ps.lookup other := by
  cases c with
  | true => simpa using lookup_setParam_of_ne ps key other value h
  | false => simp

/-- The property `vote_count.gte` of the provider parameters is decided by the
first conditional of the handler alone. -/
theorem viewAllParams_vote_count (apiKey : JsValue) (q : ViewAllQuery)
    (hid : q.id.truthy = true) :
    ∃ ps, viewAllParams apiKey q = some ps ∧
      ps.lookup "vote_count.gte" =
        if q.vote_count_gte.truthy then some q.vote_count_gte
        else if strictEqStr (orDefault q.sort_by (JsValue.str "vote_average.desc"))
            "vote_average.desc" then some (JsValue.num 300)
        else none := by
  refine ⟨_, by simp only [viewAllParams, hid]; rfl, ?_⟩
  rw [lookup_ite_setParam _ _ _ _ _ (by decide), lookup_ite_setParam _ _ _ _ _ (by decide),
    lookup_ite_setParam _ _ _ _ _ (by decide), lookup_ite_setParam _ _ _ _ _ (by decide)]
  by_cases hv : q.vote_count_gte.truthy = true
  · simp [hv, lookup_setParam_self]
  · have hv' : q.vote_count_gte.truthy = false := by simpa using hv
    by_cases hs : strictEqStr (orDefault q.sort_by (JsValue.str "vote_average.desc"))
        "vote_average.desc" = true
    · simp [hv', hs, lookup_setParam_self]
    · have hs' : strictEqStr (orDefault q.sort_by (JsValue.str "vote_average.desc"))
          "vote_average.desc" = false := by simpa using hs
      simp [hv', hs', List.lookup]

theorem strictEqStr_orDefault (v : JsValue) :
    strictEqStr (orDefault v (JsValue.str "vote_average.desc")) "vote_average.desc" = true ↔
      v = JsValue.undefined ∨ v = JsValue.str "vote_average.desc" := by
  cases v <;> simp [strictEqStr, orDefault]

/-- C14 fails as stated for an empty `vote_count_gte`: the query
`?id=28&vote_count_gte=` supplies the empty string, and the provider parameter
`vote_count.gte` is 300 under the default sort order and absent under
`popularity.desc`, in neither case the caller's value. -/
theorem C14_empty_vote_count_is_not_passed_on :
    (viewAllParams (JsValue.str "key")
        (viewAllQuery (JsValue.str "28") JsValue.undefined (JsValue.str ""))).map
      (fun ps => ps.lookup "vote_count.gte") = some (some (JsValue.num 300)) ∧
    (viewAllParams (JsValue.str "key")
        (viewAllQuery (JsValue.str "28") (JsValue.str "popularity.desc") (JsValue.str ""))).map
      (fun ps => ps.lookup "vote_count.gte") = some none :=
  ⟨rfl, rfl⟩

/-- C14 as amended: for every query with a genre id the handler builds its
provider parameters, and `vote_count.gte` is 300 when `sort_by` is
`vote_average.desc` or omitted and `vote_count_gte` is absent or empty (falsy);
it is the caller's `vote_count_gte` whenever that is non-empty (truthy),
whatever the sort order; and it is absent when `sort_by` is anything else and
`vote_count_gte` is absent or empty. -/
theorem C14_vote_count_floor (apiKey : JsValue) (q : ViewAllQuery)
    (hid : q.id.truthy = true) :
    ∃ ps, viewAllParams apiKey q = some ps ∧
      (q.sort_by = JsValue.undefined ∨ q.sort_by = JsValue.str "vote_average.desc" →
        q.vote_count_gte.truthy = false →
        ps.lookup "vote_count.gte" = some (JsValue.num 300)) ∧
      (q.vote_count_gte.truthy = true →
        ps.lookup "vote_count.gte" = some q.vote_count_gte) ∧
      (q.sort_by ≠ JsValue.undefined → q.sort_by ≠ JsValue.str "vote_average.desc" →
        q.vote_count_gte.truthy = false →
        ps.lookup "vote_count.gte" = none) := by
  obtain ⟨ps, hps, hl⟩ := viewAllParams_vote_count apiKey q hid
  refine ⟨ps, hps, ?_, ?_, ?_⟩
  · intro hs hv
    rw [hl, hv, (strictEqStr_orDefault q.sort_by).mpr hs]
    rfl
  · intro hv
    rw [hl, hv]
    rfl
  · intro hs1 hs2 hv
    have hs : strictEqStr (orDefault q.sort_by (JsValue.str "vote_average.desc"))
        "vote_average.desc" = false := by
      cases h : strictEqStr (orDefault q.sort_by (JsValue.str "vote_average.desc"))
          "vote_average.desc" with
      | false => rfl
      | true =>
        rcases (strictEqStr_orDefault q.sort_by).mp h with h1 | h1
        · exact absurd h1 hs1
        · exact absurd h1 hs2
    rw [hl, hv, hs]
    rfl

/-- C14 as amended, at concrete inputs: genre 28 with nothing else, with
`vote_count_gte=50` under `popularity.desc`, and with `popularity.desc` alone. -/
theorem C14_vote_count_floor_witness :
    (∃ ps, viewAllParams (JsValue.str "key")
        (viewAllQuery (JsValue.str "28") JsValue.undefined JsValue.undefined) = some ps ∧
      ps.lookup "vote_count.gte" = some (JsValue.num 300)) ∧
    (∃ ps, viewAllParams (JsValue.str "key")
        (viewAllQuery (JsValue.str "28") (JsValue.str "popularity.desc") (JsValue.str "50"))
          = some ps ∧
      ps.lookup "vote_count.gte" = some (JsValue.str "50")) ∧
    (∃ ps, viewAllParams (JsValue.str "key")
        (viewAllQuery (JsValue.str "28") (JsValue.str "popularity.desc") JsValue.undefined)
          = some ps ∧
      ps.lookup "vote_count.gte" = none) := by
  refine ⟨?_, ?_, ?_⟩
  · obtain ⟨ps, h, h1, _, _⟩ := C14_vote_count_floor (JsValue.str "key")
      (viewAllQuery (JsValue.str "28") JsValue.undefined JsValue.undefined) rfl
    exact ⟨ps, h, h1 (Or.inl rfl) rfl⟩
  · obtain ⟨ps, h, _, h2, _⟩ := C14_vote_count_floor (JsValue.str "key")
      (viewAllQuery (JsValue.str "28") (JsValue.str "popularity.desc") (JsValue.str "50")) rfl
    exact ⟨ps, h, h2 rfl⟩
  · obtain ⟨ps, h, _, _, h3⟩ := C14_vote_count_floor (JsValue.str "key")
      (viewAllQuery (JsValue.str "28") (JsValue.str "popularity.desc") JsValue.undefined) rfl
    exact ⟨ps, h, h3 (by simp [viewAllQuery]) (by simp [viewAllQuery]) rfl⟩

/-! ## The random pick of `/random` -/

theorem isDouble_zero : IsDouble 0 :=
  ⟨0, 0, by norm_num, by norm_num, by norm_num, by norm_num⟩

theorem roundsToNearest_exact : RoundsToNearest (fun a b => a * b) := by
  intro a b g _
  simp

/-- A double below 1 is at most `1 - 2^(-53)`. -/
theorem IsDouble.le_of_lt_one {r : ℚ} (h : IsDouble r) (h1 : r < 1) :
    r ≤ 1 - 1 / 2 ^ 53 := by
  obtain ⟨m, e, hm, _, _, rfl⟩ := h
  by_cases hcase : -53 ≤ e
  · obtain ⟨j, hj⟩ := Int.eq_ofNat_of_zero_le (by omega : 0 ≤ e + 53)
    have he : e = (j : ℤ) - 53 := by omega
    have h2 : (2 : ℚ) ^ e = 2 ^ j / 2 ^ 53 := by
      rw [he, zpow_sub₀ (by norm_num : (2 : ℚ) ≠ 0), zpow_natCast]
      norm_num
    rw [h2] at h1 ⊢
    have h3 : (m : ℚ) * 2 ^ j < 2 ^ 53 := by
      have h := h1
      rw [← mul_div_assoc, div_lt_one (by positivity)] at h
      exact h
    have h4 : m * 2 ^ j < 2 ^ 53 := by exact_mod_cast h3
    have h5 : m * 2 ^ j ≤ 2 ^ 53 - 1 := Int.le_sub_one_of_lt h4
    have h6 : (m : ℚ) * 2 ^ j ≤ 2 ^ 53 - 1 := by exact_mod_cast h5
    rw [← mul_div_assoc, div_le_iff₀ (by positivity)]
    calc (m : ℚ) * 2 ^ j ≤ 2 ^ 53 - 1 := h6
      _ = (1 - 1 / 2 ^ 53) * 2 ^ 53 := by norm_num
  · have hle : (2 : ℚ) ^ e ≤ 2 ^ (-54 : ℤ) := zpow_le_zpow_right₀ (by norm_num) (by omega)
    have hm' : (m : ℚ) ≤ 2 ^ 53 := by
      have := (abs_lt.mp hm).2
      exact_mod_cast this.le
    have hpos : (0 : ℚ) < 2 ^ e := zpow_pos (by norm_num) e
    calc (m : ℚ) * 2 ^ e ≤ 2 ^ 53 * 2 ^ e := mul_le_mul_of_nonneg_right hm' hpos.le
      _ ≤ 2 ^ 53 * 2 ^ (-54 : ℤ) := mul_le_mul_of_nonneg_left hle (by positivity)
      _ ≤ 1 - 1 / 2 ^ 53 := by norm_num

/-- Every integer `1 ≤ n < 2^53` has a normalised significand `n * 2^d` in
`[2^52, 2^53)`. -/
theorem exists_normalised (n : ℤ) (h1 : 1 ≤ n) (h2 : n < 2 ^ 53) :
    ∃ d : ℕ, d ≤ 52 ∧ 2 ^ 52 ≤ n * 2 ^ d ∧ n * 2 ^ d < 2 ^ 53 := by
  obtain ⟨N, rfl⟩ := Int.eq_ofNat_of_zero_le (by omega : 0 ≤ n)
  have hN0 : N ≠ 0 := by omega
  have hN2 : N < 2 ^ 53 := by exact_mod_cast h2
  have hlo : 2 ^ Nat.log 2 N ≤ N := Nat.pow_log_le_self 2 hN0
  have hhi : N < 2 ^ (Nat.log 2 N + 1) := Nat.lt_pow_succ_log_self (by norm_num) N
  have hk : Nat.log 2 N < 53 :=
    (Nat.pow_lt_pow_iff_right (by norm_num : 1 < 2)).mp (lt_of_le_of_lt hlo hN2)
  refine ⟨52 - Nat.log 2 N, by omega, ?_, ?_⟩
  · have : 2 ^ Nat.log 2 N * 2 ^ (52 - Nat.log 2 N) = 2 ^ 52 := by
      rw [← pow_add]
      congr 1
      omega
    have h := Nat.mul_le_mul_right (2 ^ (52 - Nat.log 2 N)) hlo
    rw [this] at h
    exact_mod_cast h
  · have : 2 ^ (Nat.log 2 N + 1) * 2 ^ (52 - Nat.log 2 N) = 2 ^ 53 := by
      rw [← pow_add]
      congr 1
      omega
    have h := Nat.mul_lt_mul_of_pos_right hhi (pow_pos (by norm_num : 0 < 2) (52 - Nat.log 2 N))
    rw [this] at h
    exact_mod_cast h

/-- Below every integer `1 ≤ n < 2^53` there is a double that is nearer than `n`
to every `x ≤ n * (1 - 2^(-53))`. -/
theorem exists_double_below (n : ℤ) (h1 : 1 ≤ n) (h2 : n < 2 ^ 53) :
    ∃ g : ℚ, IsDouble g ∧ ∀ x : ℚ, x ≤ n * (1 - 1 / 2 ^ 53) → |g - x| < n - x := by
  obtain ⟨d, hd, hlo, hhi⟩ := exists_normalised n h1 h2
  have hD : (0 : ℚ) < 2 ^ d := by positivity
  have hloq : (2 : ℚ) ^ 52 ≤ n * 2 ^ d := by exact_mod_cast hlo
  have hhiq : (n : ℚ) * 2 ^ d < 2 ^ 53 := by exact_mod_cast hhi
  have hn : (0 : ℚ) < n := by exact_mod_cast (by omega : 0 < n)
  have hpow : (2 : ℚ) ^ (-(d : ℤ)) = 1 / 2 ^ d := by
    rw [zpow_neg, zpow_natCast, one_div]
  rcases eq_or_lt_of_le hlo with heq | hlt
  · -- `n` is a power of two: the double just below it is `n * (1 - 2^(-53))`
    have heqq : (n : ℚ) * 2 ^ d = 2 ^ 52 := by exact_mod_cast heq.symm
    have hnq : (n : ℚ) = 2 ^ 52 / 2 ^ d := by
      rw [eq_div_iff hD.ne']
      exact heqq
    refine ⟨(n : ℚ) * (1 - 1 / 2 ^ 53), ⟨2 ^ 53 - 1, -((d : ℤ) + 1), by norm_num, by omega,
      by omega, ?_⟩, ?_⟩
    · rw [zpow_neg, zpow_add₀ (by norm_num : (2 : ℚ) ≠ 0), zpow_natCast, hnq]
      push_cast
      field_simp
      ring
    · intro x hx
      rw [abs_of_nonneg (by linarith)]
      have : (n : ℚ) * (1 - 1 / 2 ^ 53) < n := by
        have : (0 : ℚ) < n * (1 / 2 ^ 53) := by positivity
        linarith
      linarith
  · -- otherwise the double just below `n` is `n - 2^(-d)`
    have hltq : (2 : ℚ) ^ 52 < n * 2 ^ d := by exact_mod_cast hlt
    have hm0 : 0 ≤ n * 2 ^ d - 1 := by
      have : (0 : ℤ) < 2 ^ 52 := by norm_num
      omega
    refine ⟨(n : ℚ) - 1 / 2 ^ d, ⟨n * 2 ^ d - 1, -(d : ℤ), ?_, by omega, by omega, ?_⟩, ?_⟩
    · rw [abs_of_nonneg hm0]
      omega
    · rw [hpow]
      push_cast
      field_simp
    · intro x hx
      have hhalf : 1 / (2 * (2 : ℚ) ^ d) < n / 2 ^ 53 := by
        rw [div_lt_div_iff₀ (by positivity) (by positivity)]
        have : (2 : ℚ) ^ 53 = 2 * 2 ^ 52 := by norm_num
        rw [this]
        nlinarith
      have hx' : x < n - 1 / (2 * (2 : ℚ) ^ d) := by
        have : (n : ℚ) * (1 - 1 / 2 ^ 53) = n - n / 2 ^ 53 := by ring
        rw [this] at hx
        linarith
      have hsplit : 1 / (2 : ℚ) ^ d = 2 * (1 / (2 * (2 : ℚ) ^ d)) := by
        field_simp
      have hpos : (0 : ℚ) < 1 / (2 * (2 : ℚ) ^ d) := by positivity
      rw [abs_lt]
      constructor <;> linarith

/-- For a double draw `0 ≤ r < 1`, an integer `1 ≤ n < 2^53` and a product
rounded to a nearest double, `Math.floor(r * n)` lies in `0 .. n - 1`. -/
theorem floor_draw_bounds (mul : ℚ → ℚ → ℚ) (hmul : RoundsToNearest mul) (r : ℚ)
    (hr : IsDouble r) (h0 : 0 ≤ r) (h1 : r < 1) (n : ℤ) (hn1 : 1 ≤ n) (hn2 : n < 2 ^ 53) :
    0 ≤ ⌊mul r (n : ℚ)⌋ ∧ ⌊mul r (n : ℚ)⌋ < n := by
  have hn : (0 : ℚ) < n := by exact_mod_cast (by omega : 0 < n)
  have hx0 : 0 ≤ r * (n : ℚ) := mul_nonneg h0 hn.le
  constructor
  · rw [Int.floor_nonneg]
    by_contra hneg
    have h := hmul r n 0 isDouble_zero
    rw [zero_sub, abs_neg, abs_of_nonneg hx0, abs_of_neg (by linarith)] at h
    linarith
  · rw [Int.floor_lt]
    obtain ⟨g, hg, hnear⟩ := exists_double_below n hn1 hn2
    have hx : r * (n : ℚ) ≤ n * (1 - 1 / 2 ^ 53) := by
      have := mul_le_mul_of_nonneg_right (hr.le_of_lt_one h1) hn.le
      linarith
    have h := lt_of_le_of_lt (hmul r n g hg) (hnear _ hx)
    by_contra hge
    have := le_abs_self (mul r (n : ℚ) - r * (n : ℚ))
    linarith

theorem elementAt_of_bounds {α : Type} (results : List α) (index : Int) (h0 : 0 ≤ index)
    (h1 : index < results.length) :
    ∃ chosen, elementAt results index = some chosen := by
  have hlt : index.toNat < results.length := by omega
  refine ⟨results[index.toNat], ?_⟩
  simp [elementAt, not_lt.mpr h0, List.getElem?_eq_getElem hlt]

theorem cap_eq_min (totalPages : Int) :
    (if totalPages > 500 then 500 else totalPages) = min totalPages 500 := by
  split <;> omega

/-- C15 (the random pick stays in range): with the first page answered by the
provider, draws `r1`, `r2` that are doubles with `0 ≤ r < 1`, and products
rounded to nearest (or exact), the handler answers `null` after that one
request when `total_pages < 1`; otherwise the page it chooses,
`Math.floor(r1 * min(total_pages, 500)) + 1`, satisfies
`1 ≤ page ≤ min(total_pages, 500)`, and whenever the chosen page is answered
with a non-empty list of items with a poster (an array, so of length below
`2^53`), the chosen index satisfies `0 ≤ index < results.length` and the handler
answers with the item at that index, which exists. -/
theorem C15_random_pick_in_range (provider : Int → Option DiscoverData)
    (mul : ℚ → ℚ → ℚ) (firstRes : DiscoverData) (r1 r2 : ℚ)
    (hmul : RoundsToNearest mul) (hfirst : provider 1 = some firstRes)
    (hr1 : IsDouble r1) (h1 : 0 ≤ r1) (h1' : r1 < 1)
    (hr2 : IsDouble r2) (h2 : 0 ≤ r2) (h2' : r2 < 1) :
    (firstRes.total_pages < 1 →
      randomHandler provider mul r1 r2 = RandomOutcome.null [1]) ∧
    (1 ≤ firstRes.total_pages →
      ∃ page : Int, page = ⌊mul r1 ((min firstRes.total_pages 500 : Int) : ℚ)⌋ + 1 ∧
        1 ≤ page ∧ page ≤ min firstRes.total_pages 500 ∧
        ∀ pageRes, (if page = 1 then some firstRes else provider page) = some pageRes →
          pageRes.results.filter (fun item => (posterPath item).truthy) ≠ [] →
          ((pageRes.results.filter (fun item => (posterPath item).truthy)).length : Int)
            < 2 ^ 53 →
          ∃ index chosen,
            randomHandler provider mul r1 r2
              = RandomOutcome.item (if page = 1 then [1] else [1, page]) page index chosen ∧
            0 ≤ index ∧
            index < (pageRes.results.filter (fun item => (posterPath item).truthy)).length ∧
            elementAt (pageRes.results.filter (fun item => (posterPath item).truthy)) index
              = some chosen) := by
  constructor
  · intro hlt
    have hcap : (if firstRes.total_pages > 500 then 500 else firstRes.total_pages)
        = firstRes.total_pages := by
      split <;> omega
    simp only [randomHandler, hfirst, hcap]
    simp [hlt]
  · intro hge
    have hcap1 : 1 ≤ min firstRes.total_pages 500 := by omega
    have hcap2 : min firstRes.total_pages 500 < 2 ^ 53 :=
      lt_of_le_of_lt (min_le_right _ _) (by norm_num)
    obtain ⟨hp0, hp1⟩ := floor_draw_bounds mul hmul r1 hr1 h1 h1'
      (min firstRes.total_pages 500) hcap1 hcap2
    refine ⟨_, rfl, by omega, by omega, ?_⟩
    intro pageRes hpage hne hsize
    have hlen : 1 ≤ ((pageRes.results.filter (fun item => (posterPath item).truthy)).length
        : Int) := by
      have := List.length_pos.mpr hne
      omega
    obtain ⟨hi0, hi1⟩ := floor_draw_bounds mul hmul r2 hr2 h2 h2' _ hlen hsize
    rw [Int.cast_natCast] at hi0 hi1
    obtain ⟨chosen, hch⟩ := elementAt_of_bounds _ _ hi0 hi1
    refine ⟨_, chosen, ?_, hi0, hi1, hch⟩
    have hlen0 : (pageRes.results.filter (fun item => (posterPath item).truthy)).length ≠ 0 :=
      fun h => hne (List.length_eq_zero.mp h)
    simp only [randomHandler, hfirst, cap_eq_min]
    rw [if_neg (not_lt.mpr hcap1)]
    simp only [hpage, hlen0, if_false, hch]

/-- C15 at a concrete input: the provider `threePages` with the draws 1/2 and
1/4 and exact products; the handler answers with an item, the page is within
`1 .. 3` and the index within the one item with a poster. -/
theorem C15_random_pick_in_range_witness :
    threePages 1 = some ⟨3, [posterItem "A", [("title", JsValue.str "B")]]⟩ ∧
    ∃ page index chosen,
      randomHandler threePages (fun a b => a * b) (1 / 2) (1 / 4)
        = RandomOutcome.item (if page = 1 then [1] else [1, page]) page index chosen ∧
      1 ≤ page ∧ page ≤ 3 ∧ 0 ≤ index ∧ index < 1 := by
  have hfirst : threePages 1 = some ⟨3, [posterItem "A", [("title", JsValue.str "B")]]⟩ := rfl
  refine ⟨hfirst, ?_⟩
  obtain ⟨page, _, hp1, hp2, h⟩ := (C15_random_pick_in_range threePages (fun a b => a * b) _
    (1 / 2) (1 / 4) roundsToNearest_exact hfirst
    ⟨1, -1, by norm_num, by norm_num, by norm_num, by norm_num⟩ (by norm_num) (by norm_num)
    ⟨1, -2, by norm_num, by norm_num, by norm_num, by norm_num⟩ (by norm_num) (by norm_num)).2
    (by decide)
  have hp3 : page ≤ 3 := le_trans hp2 (min_le_left _ _)
  have hres : (if page = 1 then
        some (⟨3, [posterItem "A", [("title", JsValue.str "B")]]⟩ : DiscoverData)
      else threePages page) = some ⟨3, [posterItem "A", [("title", JsValue.str "B")]]⟩ := by
    split
    · rfl
    · simp [threePages, hp1, hp3]
  have hfilter : ([posterItem "A", [("title", JsValue.str "B")]].filter
      (fun item => (posterPath item).truthy)) = [posterItem "A"] := rfl
  have hlen : (([posterItem "A", [("title", JsValue.str "B")]].filter
      (fun item => (posterPath item).truthy)).length : Int) = 1 := by
    rw [hfilter]
    rfl
  obtain ⟨index, chosen, ho, hi0, hi1, _⟩ := h _ hres (by
    show List.filter _ [posterItem "A", [("title", JsValue.str "B")]] ≠ []
    rw [hfilter]
    exact List.cons_ne_nil _ _) (by
    show ((List.filter _ [posterItem "A", [("title", JsValue.str "B")]]).length : Int) < 2 ^ 53
    rw [hlen]
    norm_num)
  exact ⟨page, index, chosen, ho, hp1, hp3, hi0, lt_of_lt_of_eq hi1 hlen⟩

end StreamCircle
